import Mathlib

/-
Verification of the tick-update core of the `rust-sc2` repository
(`src/bot.rs`, `src/game_state.rs`, `src/unit.rs`, `src/units/mod.rs`)
against its natural-language specification.

Shallow embedding conventions:
* `u64` tags are `Nat`; `u32` counters are `Nat` with explicit `% 2 ^ 32`
  where wraparound matters; `f32` coordinates/progress values are exact
  rationals `ℚ` (idealised float arithmetic).
* `FxIndexMap` / `FxIndexSet` are insertion-ordered association lists; their
  `remove` is indexmap's `swap_remove` (the last element is moved into the
  removed slot), which is embedded literally.
* Hash sets (`FxHashSet`) are tag lists used only through membership,
  insertion and erasure.
-/

set_option autoImplicit false

namespace RustSc2

/-- Stable unique identifier of one entity for the duration of a match
(`u64` tag). -/
abbrev Tag := Nat

/-- Opaque ability identifier (`AbilityId`); the claims under study never
inspect concrete abilities, so it is embedded as a bare number. -/
abbrev AbilityId := Nat

/-- 2D position (`Point2` in `geometry.rs`), `f32` coordinates idealised as
exact rationals. -/
structure Point2 where
  x : ℚ
  y : ℚ
deriving DecidableEq

/-- Squared planar distance between two points (`Point2::distance_squared`). -/
def Point2.distSq (p q : Point2) : ℚ :=
  (p.x - q.x) * (p.x - q.x) + (p.y - q.y) * (p.y - q.y)

/-- `Point2::offset`. -/
def Point2.offset (p : Point2) (dx dy : ℚ) : Point2 :=
  ⟨p.x + dx, p.y + dy⟩

/-- Embedding of the crate's distance trait `is_closer(range, target)`
(module `distance`, a helper not under `src/`): the distance between the two
points is strictly less than `range`; compared through squares to avoid
square roots. -/
def isCloser (range : ℚ) (p q : Point2) : Bool :=
  decide (Point2.distSq p q < range * range)

/-- `Alliance` enum from `game_state.rs`. -/
inductive Alliance
  | own
  | ally
  | neutral
  | enemy
deriving DecidableEq

/-- Display state of a unit (`DisplayType`, used by `unit.rs`): fully
visible, snapshot in fog, fully hidden, or building placeholder. -/
inductive DisplayType
  | visible
  | snapshot
  | hidden
  | placeholder
deriving DecidableEq

/-- Wire-format cloak state (`ProtoCloakState` from the SC2 protocol). -/
inductive CloakState
  | cloakedUnknown
  | cloaked
  | cloakedDetected
  | notCloaked
  | cloakedAllied
deriving DecidableEq

/-- The unit type identifiers that the embedded code inspects by name; every
other identifier is collapsed into `other`. -/
inductive UnitTypeId
  | commandCenter
  | orbitalCommand
  | planetaryFortress
  | hatchery
  | lair
  | hive
  | nexus
  | commandCenterFlying
  | orbitalCommandFlying
  | refinery
  | refineryRich
  | assimilator
  | assimilatorRich
  | extractor
  | extractorRich
  | techLab
  | barracksTechLab
  | factoryTechLab
  | starportTechLab
  | reactor
  | barracksReactor
  | factoryReactor
  | starportReactor
  | larva
  | egg
  | drone
  | droneBurrowed
  | roach
  | roachBurrowed
  | zergling
  | zerglingBurrowed
  | kd8Charge
  | supplyDepot
  | medivac
  | warpPrism
  | warpPrismPhasing
  | overlordTransport
  | changeling
  | changelingZealot
  | changelingMarineShield
  | changelingMarine
  | changelingZerglingWings
  | changelingZergling
  | broodling
  | observer
  | observerSiegeMode
  | raven
  | overseer
  | overseerSiegeMode
  | missileTurret
  | sporeCrawler
  | photonCannon
  | other (n : Nat)


/-- Injective numeric encoding of the type identifiers (used to build the
decidable equality instance with a small term; a derived instance's
quadratic match is avoided). -/
def UnitTypeId.code : UnitTypeId → Nat
  | .commandCenter => 0
  | .orbitalCommand => 1
  | .planetaryFortress => 2
  | .hatchery => 3
  | .lair => 4
  | .hive => 5
  | .nexus => 6
  | .commandCenterFlying => 7
  | .orbitalCommandFlying => 8
  | .refinery => 9
  | .refineryRich => 10
  | .assimilator => 11
  | .assimilatorRich => 12
  | .extractor => 13
  | .extractorRich => 14
  | .techLab => 15
  | .barracksTechLab => 16
  | .factoryTechLab => 17
  | .starportTechLab => 18
  | .reactor => 19
  | .barracksReactor => 20
  | .factoryReactor => 21
  | .starportReactor => 22
  | .larva => 23
  | .egg => 24
  | .drone => 25
  | .droneBurrowed => 26
  | .roach => 27
  | .roachBurrowed => 28
  | .zergling => 29
  | .zerglingBurrowed => 30
  | .kd8Charge => 31
  | .supplyDepot => 32
  | .medivac => 33
  | .warpPrism => 34
  | .warpPrismPhasing => 35
  | .overlordTransport => 36
  | .changeling => 37
  | .changelingZealot => 38
  | .changelingMarineShield => 39
  | .changelingMarine => 40
  | .changelingZerglingWings => 41
  | .changelingZergling => 42
  | .broodling => 43
  | .observer => 44
  | .observerSiegeMode => 45
  | .raven => 46
  | .overseer => 47
  | .overseerSiegeMode => 48
  | .missileTurret => 49
  | .sporeCrawler => 50
  | .photonCannon => 51
  | .other n => n + 52

/-- Left inverse of `UnitTypeId.code`. -/
def UnitTypeId.decode : Nat → UnitTypeId
  | 0 => .commandCenter
  | 1 => .orbitalCommand
  | 2 => .planetaryFortress
  | 3 => .hatchery
  | 4 => .lair
  | 5 => .hive
  | 6 => .nexus
  | 7 => .commandCenterFlying
  | 8 => .orbitalCommandFlying
  | 9 => .refinery
  | 10 => .refineryRich
  | 11 => .assimilator
  | 12 => .assimilatorRich
  | 13 => .extractor
  | 14 => .extractorRich
  | 15 => .techLab
  | 16 => .barracksTechLab
  | 17 => .factoryTechLab
  | 18 => .starportTechLab
  | 19 => .reactor
  | 20 => .barracksReactor
  | 21 => .factoryReactor
  | 22 => .starportReactor
  | 23 => .larva
  | 24 => .egg
  | 25 => .drone
  | 26 => .droneBurrowed
  | 27 => .roach
  | 28 => .roachBurrowed
  | 29 => .zergling
  | 30 => .zerglingBurrowed
  | 31 => .kd8Charge
  | 32 => .supplyDepot
  | 33 => .medivac
  | 34 => .warpPrism
  | 35 => .warpPrismPhasing
  | 36 => .overlordTransport
  | 37 => .changeling
  | 38 => .changelingZealot
  | 39 => .changelingMarineShield
  | 40 => .changelingMarine
  | 41 => .changelingZerglingWings
  | 42 => .changelingZergling
  | 43 => .broodling
  | 44 => .observer
  | 45 => .observerSiegeMode
  | 46 => .raven
  | 47 => .overseer
  | 48 => .overseerSiegeMode
  | 49 => .missileTurret
  | 50 => .sporeCrawler
  | 51 => .photonCannon
  | n + 52 => .other n

theorem UnitTypeId.decode_code (a : UnitTypeId) : UnitTypeId.decode a.code = a := by
  cases a <;> rfl

theorem UnitTypeId.code_injective {a b : UnitTypeId} (h : a.code = b.code) : a = b := by
  have ha := UnitTypeId.decode_code a
  rw [h, UnitTypeId.decode_code b] at ha
  exact ha.symm

instance instDecEqUnitTypeId : DecidableEq UnitTypeId := fun a b =>
  if h : a.code = b.code then .isTrue (UnitTypeId.code_injective h)
  else .isFalse (fun hab => h (by rw [hab]))

/-- Visibility pixel of the tick's fog-of-war map (`pixel_map.rs`, not under
`src/`; only the `is_visible` test is consumed by the embedded code). -/
inductive Pixel
  | hidden
  | explored
  | visible
deriving DecidableEq

/-- Modelled from the spec: the per-tick visibility map queryable by cell
(`VisibilityMap`, crate `pixel_map` module); `none` is an out-of-bounds
lookup. -/
def VisMap := Nat × Nat → Option Pixel

/-- `Pixel::is_visible`. -/
def Pixel.isVisible : Pixel → Bool
  | .visible => true
  | _ => false

/-- Saturating cast of an `f32` coordinate to `usize`
(`<(usize, usize)>::from(position)`): truncation toward zero, negative
values clamped to `0`. -/
def ratToUsize (q : ℚ) : Nat :=
  q.floor.toNat

/-- Cell of a position on the visibility grid. -/
def cellOf (p : Point2) : Nat × Nat :=
  (ratToUsize p.x, ratToUsize p.y)

/-- Test of `Bot::is_visible` / the `from_proto` lookup:
`visibility.get(pos).map_or(false, |p| p.is_visible())`. -/
def visAt (vis : VisMap) (c : Nat × Nat) : Bool :=
  (vis c).elim false Pixel.isVisible

/-- The canonical entity record (`Unit` in `unit.rs`), restricted to the
fields the claims under study read.  `structureAttr` and `workerAttr` record
the read-only game-data lookups `is_structure` (the `Structure` attribute)
and `is_worker`. -/
structure Unit where
  tag : Tag
  typeId : UnitTypeId
  alliance : Alliance
  position : Point2
  radius : ℚ
  buildProgress : ℚ
  displayType : DisplayType
  isFlying : Bool
  isBurrowed : Bool
  isCloaked : Bool
  isRevealed : Bool
  isHallucination : Bool
  structureAttr : Bool
  workerAttr : Bool
  detectRange : ℚ
  isPowered : Bool
deriving DecidableEq

/-- `f32::EPSILON` as an exact rational. -/
def f32Eps : ℚ := 1 / 2 ^ 23

/-- `Unit::is_ready`: `(build_progress - 1.0).abs() < f32::EPSILON`. -/
def Unit.isReady (u : Unit) : Bool :=
  decide (|u.buildProgress - 1| < f32Eps)

/-- `Unit::is_almost_ready`: `build_progress >= 0.95`. -/
def Unit.isAlmostReady (u : Unit) : Bool :=
  decide (u.buildProgress ≥ 95 / 100)

/-- `Unit::is_structure`: game-data `Structure` attribute. -/
def Unit.isStructure (u : Unit) : Bool := u.structureAttr

/-- `Unit::is_worker`. -/
def Unit.isWorker (u : Unit) : Bool := u.workerAttr

/-- `Unit::is_visible`: display state is fully visible. -/
def Unit.isVisibleU (u : Unit) : Bool := u.displayType = .visible

/-- `Unit::is_placeholder`. -/
def Unit.isPlaceholderU (u : Unit) : Bool := u.displayType = .placeholder

/-- `Unit::is_detector` (`unit.rs`). -/
def Unit.isDetector (u : Unit) : Bool :=
  (u.typeId = .observer || u.typeId = .observerSiegeMode || u.typeId = .raven ||
      u.typeId = .overseer || u.typeId = .overseerSiegeMode)
    || (u.isAlmostReady &&
      ((u.typeId = .missileTurret || u.typeId = .sporeCrawler) ||
        (u.typeId = .photonCannon && u.isPowered)))

/-- Wire-format entity record (`ProtoUnit`), restricted to the fields
`Unit::from_proto` reads for the claims under study. -/
structure ProtoUnit where
  tag : Tag
  typeId : UnitTypeId
  alliance : Alliance
  position : Point2
  radius : ℚ
  buildProgress : ℚ
  displayType : DisplayType
  cloak : CloakState
  isBurrowed : Bool
  isFlying : Bool
  isHallucination : Bool
  structureAttr : Bool
  workerAttr : Bool
  detectRange : ℚ
  isPowered : Bool
deriving DecidableEq

/-- The `(is_cloaked, is_revealed)` pair computed by `Unit::from_proto`
(`unit.rs`): a burrowed record forces `(true, false)`, otherwise the pair
follows the reported cloak state. -/
def protoCloakPair (isBurrowed : Bool) (c : CloakState) : Bool × Bool :=
  if isBurrowed then (true, false)
  else
    match c with
    | .cloakedUnknown | .notCloaked => (false, false)
    | .cloaked | .cloakedAllied => (true, false)
    | .cloakedDetected => (true, true)

/-- The display state computed by `Unit::from_proto` (`unit.rs`): a record
reported fully visible is downgraded to `Snapshot` when the visibility map
does not mark its cell currently visible; other states pass through. -/
def protoDisplay (vis : VisMap) (position : Point2) (d : DisplayType) : DisplayType :=
  match d with
  | .visible => if visAt vis (cellOf position) then .visible else .snapshot
  | x => x

/-- `Unit::from_proto` (`unit.rs`): conversion of one wire record into the
canonical entity, restricted to the fields the claims read. -/
def Unit.fromProto (vis : VisMap) (p : ProtoUnit) : Unit :=
  let cr := protoCloakPair p.isBurrowed p.cloak
  { tag := p.tag
    typeId := p.typeId
    alliance := p.alliance
    position := p.position
    radius := p.radius
    buildProgress := p.buildProgress
    displayType := protoDisplay vis p.position p.displayType
    isFlying := p.isFlying
    isBurrowed := p.isBurrowed
    isCloaked := cr.1
    isRevealed := cr.2
    isHallucination := p.isHallucination
    structureAttr := p.structureAttr
    workerAttr := p.workerAttr
    detectRange := p.detectRange
    isPowered := p.isPowered }

/-- Spec-side description of the cloak fix-up, written from the spec's words
for the non-burrowed case: "cloak and revealed follow the reported cloak
state". -/
def reportedCloakPair (c : CloakState) : Bool × Bool :=
  match c with
  | .cloakedUnknown | .notCloaked => (false, false)
  | .cloaked | .cloakedAllied => (true, false)
  | .cloakedDetected => (true, true)

/-- C5: a wire record flagged burrowed converts with `cloak = true` and
`revealed = false` regardless of the reported cloak state; a non-burrowed
record's cloak and revealed fields follow the reported cloak state. -/
theorem burrowed_forces_cloak (vis : VisMap) (p : ProtoUnit) :
    ((Unit.fromProto vis p).isCloaked, (Unit.fromProto vis p).isRevealed)
      = if p.isBurrowed then (true, false) else reportedCloakPair p.cloak := by
  cases hb : p.isBurrowed <;>
    simp [Unit.fromProto, protoCloakPair, reportedCloakPair, hb]

/-- C6: a wire record reported fully visible converts to `Snapshot` when the
visibility map does not mark its cell currently visible, stays `Visible`
when it does; every other reported display state passes through
unchanged. -/
theorem visible_downgrade_to_snapshot (vis : VisMap) (p : ProtoUnit) :
    (p.displayType = .visible → ¬ visAt vis (cellOf p.position) →
        (Unit.fromProto vis p).displayType = .snapshot)
    ∧ (p.displayType = .visible → visAt vis (cellOf p.position) →
        (Unit.fromProto vis p).displayType = .visible)
    ∧ (p.displayType ≠ .visible →
        (Unit.fromProto vis p).displayType = p.displayType) := by
  refine ⟨fun hd hv => ?_, fun hd hv => ?_, fun hd => ?_⟩
  · simp [Unit.fromProto, protoDisplay, hd, Bool.not_eq_true] at hv ⊢
    simp [hv]
  · simp [Unit.fromProto, protoDisplay, hd, hv]
  · cases h : p.displayType <;> simp_all [Unit.fromProto, protoDisplay]

/-- Witness for C5/C6-style hypotheses: the downgrade fires on a concrete
record standing on an unexplored cell. -/
theorem visible_downgrade_to_snapshot_witness :
    (Unit.fromProto (fun _ => some .explored)
      { tag := 1, typeId := .drone, alliance := .enemy, position := ⟨5, 5⟩,
        radius := 1/2, buildProgress := 1, displayType := .visible,
        cloak := .notCloaked, isBurrowed := false, isFlying := false,
        isHallucination := false, structureAttr := false, workerAttr := true,
        detectRange := 0, isPowered := false }).displayType = .snapshot := by
  refine (visible_downgrade_to_snapshot (fun _ => some .explored) _).1 rfl ?_
  decide

/-- Target of a command (`crate::action::Target`, as used by `unit.rs`). -/
inductive Target
  | none
  | pos (p : Point2)
  | tag (t : Tag)
deriving DecidableEq

/-- Key of a command bucket: the exact `(ability, target, queue)` tuple. -/
abbrev CmdKey := AbilityId × Target × Bool

/-- Modelled from the spec: the `Commander` struct (`crate::action`, not
under `src/`).  Per §4.5 it maps each `(ability, target, queue-flag)` tuple
to the bucket of entity tags requesting it, plus a separate per-ability
autocast bucket; `Unit::command` in `unit.rs` appends to a bucket with
`.entry(key).or_default().push(tag)`, so a bucket is an ordered list of tags
in call order, and the map is insertion-ordered with unique keys. -/
structure Commander where
  commands : List (CmdKey × List Tag)
  autocast : List (AbilityId × List Tag)
deriving DecidableEq

/-- The commander at the start of a tick (both maps drained/cleared). -/
def Commander.empty : Commander := ⟨[], []⟩

/-- `.entry(key).or_default().push(tag)` on an insertion-ordered map:
append the tag to the existing bucket, or append a fresh singleton bucket. -/
def entryPush (l : List (CmdKey × List Tag)) (k : CmdKey) (t : Tag) :
    List (CmdKey × List Tag) :=
  match l with
  | [] => [(k, [t])]
  | kv :: rest =>
    if kv.1 = k then (kv.1, kv.2 ++ [t]) :: rest else kv :: entryPush rest k t

/-- `Unit::command` (`unit.rs`): appends the unit's tag to the bucket keyed
by the exact `(ability, target, queue)` tuple. -/
def Commander.command (c : Commander) (tag : Tag) (ability : AbilityId)
    (target : Target) (queue : Bool) : Commander :=
  { c with commands := entryPush c.commands (ability, target, queue) tag }

/-- Outgoing batched action (`crate::action::Action` as constructed by
`Bot::get_actions`). -/
inductive Action
  | unitCommand (ability : AbilityId) (target : Target) (units : List Tag) (queue : Bool)
  | toggleAutocast (ability : AbilityId) (units : List Tag)
deriving DecidableEq

/-- `Bot::get_actions` (`bot.rs`): drains both commander maps into a linear
sequence of batched actions, one action per distinct key carrying all tags
that share it. -/
def getActions (c : Commander) : List Action :=
  c.commands.map (fun kv => Action.unitCommand kv.1.1 kv.1.2.1 kv.2 kv.1.2.2)
    ++ c.autocast.map (fun kv => Action.toggleAutocast kv.1 kv.2)

/-- The tag lists of all batched unit-command actions carrying a given key. -/
def actionTagsFor (acts : List Action) (k : CmdKey) : List (List Tag) :=
  acts.filterMap fun a =>
    match a with
    | .unitCommand ab tgt us q => if (ab, tgt, q) = k then some us else Option.none
    | _ => Option.none

/-- A whole tick's worth of command calls, starting from the drained
commander. -/
def issueAll (c : Commander) (calls : List (CmdKey × Tag)) : Commander :=
  calls.foldl (fun c kt => c.command kt.2 kt.1.1 kt.1.2.1 kt.1.2.2) c

/-- Keys of the command map in insertion order. -/
def keysOf (l : List (CmdKey × List Tag)) : List CmdKey := l.map Prod.fst

/-- First bucket stored under a key (`IndexMap` lookup). -/
def bucketOf (l : List (CmdKey × List Tag)) (k : CmdKey) : Option (List Tag) :=
  match l with
  | [] => Option.none
  | kv :: rest => if kv.1 = k then some kv.2 else bucketOf rest k

/-- The tags of the calls issued for one key, in call order. -/
def keyCalls (calls : List (CmdKey × Tag)) (k : CmdKey) : List Tag :=
  (calls.filter (fun c => c.1 = k)).map Prod.snd

theorem keysOf_entryPush_mem (l : List (CmdKey × List Tag)) (k : CmdKey) (t : Tag)
    (h : k ∈ keysOf l) : keysOf (entryPush l k t) = keysOf l := by
  induction l with
  | nil => simp [keysOf] at h
  | cons kv rest ih =>
    by_cases hk : kv.1 = k
    · simp [entryPush, hk, keysOf]
    · have h' : k ∈ keysOf rest := by
        simp only [keysOf, List.map_cons, List.mem_cons] at h
        rcases h with h1 | h1
        · exact absurd h1.symm hk
        · exact h1
      have hr := ih h'
      simp only [keysOf] at hr
      simp [entryPush, hk, keysOf, hr]

theorem keysOf_entryPush_not_mem (l : List (CmdKey × List Tag)) (k : CmdKey) (t : Tag)
    (h : k ∉ keysOf l) : keysOf (entryPush l k t) = keysOf l ++ [k] := by
  induction l with
  | nil => simp [entryPush, keysOf]
  | cons kv rest ih =>
    simp only [keysOf, List.map_cons, List.mem_cons, not_or] at h
    have hk : ¬ kv.1 = k := fun hc => h.1 (hc ▸ rfl)
    have h' : k ∉ keysOf rest := h.2
    have hr := ih h'
    simp only [keysOf] at hr
    simp [entryPush, hk, keysOf, hr]

theorem nodupKeys_entryPush (l : List (CmdKey × List Tag)) (k : CmdKey) (t : Tag)
    (h : (keysOf l).Nodup) : (keysOf (entryPush l k t)).Nodup := by
  by_cases hm : k ∈ keysOf l
  · rw [keysOf_entryPush_mem l k t hm]
    exact h
  · rw [keysOf_entryPush_not_mem l k t hm]
    rw [List.nodup_append]
    refine ⟨h, List.nodup_singleton k, ?_⟩
    intro x hx hk
    simp only [List.mem_singleton] at hk
    subst hk
    exact hm hx

theorem bucketOf_entryPush_same (l : List (CmdKey × List Tag)) (k : CmdKey) (t : Tag) :
    bucketOf (entryPush l k t) k = some ((bucketOf l k).getD [] ++ [t]) := by
  induction l with
  | nil => simp [entryPush, bucketOf]
  | cons kv rest ih =>
    by_cases h : kv.1 = k
    · simp [entryPush, bucketOf, h]
    · simp [entryPush, bucketOf, h, ih]

theorem bucketOf_entryPush_ne (l : List (CmdKey × List Tag)) (k k₁ : CmdKey) (t : Tag)
    (h : k₁ ≠ k) : bucketOf (entryPush l k t) k₁ = bucketOf l k₁ := by
  induction l with
  | nil => simp [entryPush, bucketOf, Ne.symm h]
  | cons kv rest ih =>
    by_cases hk : kv.1 = k
    · have hne : ¬ kv.1 = k₁ := by
        rw [hk]
        exact Ne.symm h
      simp [entryPush, bucketOf, hk, hne, Ne.symm h]
    · by_cases hk₁ : kv.1 = k₁
      · simp [entryPush, bucketOf, hk, hk₁, h]
      · simp [entryPush, bucketOf, hk, hk₁, h, ih]

theorem autocast_issueAll (calls : List (CmdKey × Tag)) (c : Commander) :
    (issueAll c calls).autocast = c.autocast := by
  induction calls generalizing c with
  | nil => rfl
  | cons kt rest ih => exact ih _

theorem nodupKeys_issueAll (calls : List (CmdKey × Tag)) (c : Commander)
    (h : (keysOf c.commands).Nodup) : (keysOf (issueAll c calls).commands).Nodup := by
  induction calls generalizing c with
  | nil => exact h
  | cons kt rest ih =>
    exact ih _ (nodupKeys_entryPush _ _ _ h)

theorem bucketOf_issueAll (calls : List (CmdKey × Tag)) (c : Commander) (k : CmdKey) :
    bucketOf (issueAll c calls).commands k
      = match bucketOf c.commands k with
        | some ts => some (ts ++ keyCalls calls k)
        | Option.none =>
          if keyCalls calls k = [] then Option.none else some (keyCalls calls k) := by
  induction calls generalizing c with
  | nil =>
    cases h : bucketOf c.commands k <;> simp [issueAll, keyCalls, h]
  | cons kt rest ih =>
    have step : issueAll c (kt :: rest)
        = issueAll (c.command kt.2 kt.1.1 kt.1.2.1 kt.1.2.2) rest := rfl
    rw [step, ih]
    by_cases hk : kt.1 = k
    · have hsame : bucketOf (c.command kt.2 kt.1.1 kt.1.2.1 kt.1.2.2).commands k
          = some ((bucketOf c.commands k).getD [] ++ [kt.2]) := by
        have : (kt.1.1, kt.1.2.1, kt.1.2.2) = k := by
          rw [← hk]
        simpa [Commander.command, this] using bucketOf_entryPush_same c.commands k kt.2
      rw [hsame]
      have hcalls : keyCalls (kt :: rest) k = kt.2 :: keyCalls rest k := by
        simp [keyCalls, hk]
      cases h : bucketOf c.commands k <;> simp [h, hcalls]
    · have hne : bucketOf (c.command kt.2 kt.1.1 kt.1.2.1 kt.1.2.2).commands k
          = bucketOf c.commands k := by
        have hkey : (kt.1.1, kt.1.2.1, kt.1.2.2) = kt.1 := rfl
        simpa [Commander.command, hkey] using
          bucketOf_entryPush_ne c.commands kt.1 k kt.2 (Ne.symm hk)
      rw [hne]
      have hcalls : keyCalls (kt :: rest) k = keyCalls rest k := by
        simp [keyCalls, hk]
      rw [hcalls]

theorem filter_eq_nil_of_not_memKeys (l : List (CmdKey × List Tag)) (k : CmdKey)
    (h : k ∉ keysOf l) : l.filter (fun kv => kv.1 = k) = [] := by
  induction l with
  | nil => rfl
  | cons kv rest ih =>
    simp only [keysOf, List.map_cons, List.mem_cons, not_or] at h
    have hne : ¬ kv.1 = k := fun hc => h.1 (hc ▸ rfl)
    simp [List.filter_cons, hne, ih h.2]

theorem bucketOf_none_of_not_memKeys (l : List (CmdKey × List Tag)) (k : CmdKey)
    (h : k ∉ keysOf l) : bucketOf l k = Option.none := by
  induction l with
  | nil => rfl
  | cons kv rest ih =>
    simp only [keysOf, List.map_cons, List.mem_cons, not_or] at h
    have : ¬ kv.1 = k := fun hc => h.1 (hc ▸ rfl)
    simp [bucketOf, this, ih h.2]

theorem filter_buckets_of_nodup (l : List (CmdKey × List Tag)) (k : CmdKey)
    (h : (keysOf l).Nodup) :
    (l.filter (fun kv => kv.1 = k)).map Prod.snd = (bucketOf l k).toList := by
  induction l with
  | nil => rfl
  | cons kv rest ih =>
    simp only [keysOf, List.map_cons, List.nodup_cons] at h
    by_cases hk : kv.1 = k
    · subst hk
      have hrest : rest.filter (fun kv' => kv'.1 = kv.1) = [] :=
        filter_eq_nil_of_not_memKeys rest kv.1 h.1
      simp [List.filter_cons, bucketOf, hrest]
    · simp [List.filter_cons, bucketOf, hk, ih h.2]

theorem actionTagsFor_getActions (c : Commander) (k : CmdKey) :
    actionTagsFor (getActions c) k = (c.commands.filter (fun kv => kv.1 = k)).map Prod.snd := by
  unfold actionTagsFor getActions
  rw [List.filterMap_append]
  have hauto : (c.autocast.map (fun kv => Action.toggleAutocast kv.1 kv.2)).filterMap
      (fun a => match a with
        | .unitCommand ab tgt us q => if (ab, tgt, q) = k then some us else Option.none
        | _ => Option.none) = [] := by
    induction c.autocast with
    | nil => rfl
    | cons kv rest ih =>
      simp only [List.map_cons, List.filterMap_cons]
      exact ih
  rw [hauto, List.append_nil, List.filterMap_map]
  induction c.commands with
  | nil => rfl
  | cons kv rest ih =>
    by_cases hk : kv.1 = k
    · simp only [List.filterMap_cons, List.filter_cons, Function.comp]
      have : (kv.1.1, kv.1.2.1, kv.1.2.2) = k := hk
      simp [this, hk, ih]
    · simp only [List.filterMap_cons, List.filter_cons, Function.comp]
      have : (kv.1.1, kv.1.2.1, kv.1.2.2) = kv.1 := rfl
      rw [this]
      simp [hk, ih]

/-- C1 counterexample: issuing the same `(ability, target, queue)` command
for tag `7` twice within one tick yields exactly one batched action for that
key, but the tag appears twice in its tag list, not once. -/
theorem command_batch_duplicate_counterexample :
    actionTagsFor
        (getActions ((Commander.empty.command 7 1 .none false).command 7 1 .none false))
        (1, .none, false)
      = [[7, 7]]
    ∧ ¬ ([7, 7] : List Tag).count 7 = 1 := by
  constructor
  · rfl
  · decide

/-- C1 (amended): for any sequence of `command` calls within one tick
(starting from the drained commander), the flushed batch contains exactly
one batched action per distinct key (keys are pairwise distinct), its tag
list is the list of tags of the calls sharing that key in call order, and a
tag appears in it once per call — calls are *not* deduplicated, so issuing
the same command for tag `T` twice makes `T` appear twice. -/
theorem command_batch_per_key (calls : List (CmdKey × Tag)) (k : CmdKey) (t : Tag) :
    (keysOf (issueAll Commander.empty calls).commands).Nodup
    ∧ actionTagsFor (getActions (issueAll Commander.empty calls)) k
        = (if keyCalls calls k = [] then [] else [keyCalls calls k])
    ∧ ((actionTagsFor (getActions (issueAll Commander.empty calls)) k).map
        (List.count t)).sum = calls.count (k, t) := by
  have hnodup : (keysOf (issueAll Commander.empty calls).commands).Nodup :=
    nodupKeys_issueAll calls Commander.empty (by simp [Commander.empty, keysOf])
  have hbucket : bucketOf (issueAll Commander.empty calls).commands k
      = if keyCalls calls k = [] then Option.none else some (keyCalls calls k) := by
    have := bucketOf_issueAll calls Commander.empty k
    simpa [Commander.empty, bucketOf] using this
  have htags : actionTagsFor (getActions (issueAll Commander.empty calls)) k
      = (if keyCalls calls k = [] then [] else [keyCalls calls k]) := by
    rw [actionTagsFor_getActions, filter_buckets_of_nodup _ _ hnodup, hbucket]
    by_cases h : keyCalls calls k = [] <;> simp [h]
  refine ⟨hnodup, htags, ?_⟩
  rw [htags]
  have hcount : (keyCalls calls k).count t = calls.count (k, t) := by
    unfold keyCalls
    rw [List.count_eq_countP, List.count_eq_countP]
    rw [List.countP_map, List.countP_filter]
    apply List.countP_congr
    intro c _
    obtain ⟨c1, c2⟩ := c
    by_cases h1 : c1 = k <;> by_cases h2 : c2 = t <;>
      simp [h1, h2, Function.comp, Prod.ext_iff]
  by_cases h : keyCalls calls k = []
  · have : calls.count (k, t) = 0 := by
      rw [← hcount, h]
      rfl
    simp [h, this]
  · simp [h, hcount]

/-- `Units` (`units/mod.rs`): a `FxIndexMap<u64, Unit>` — an
insertion-ordered map from tag to unit, embedded as the ordered list of its
units. -/
abbrev Units := List Unit

/-- Tags of a collection in insertion order. -/
def Units.tags (s : Units) : List Tag := s.map Unit.tag

/-- `Units::push` (`units/mod.rs`): insert keyed by tag; an existing entry
with the same tag is replaced in place, otherwise the unit is appended. -/
def Units.push (s : Units) (u : Unit) : Units :=
  if s.any (fun v => v.tag = u.tag) then
    s.map (fun v => if v.tag = u.tag then u else v)
  else s ++ [u]

/-- Index of the first element satisfying a predicate. -/
def findIdxOpt {α : Type} (p : α → Bool) : List α → Option Nat
  | [] => Option.none
  | a :: as => if p a then some 0 else (findIdxOpt p as).map (· + 1)

/-- Removal at an index in `swap_remove` style: the last element moves into
the hole. -/
def swapRemoveIdx {α : Type} (l : List α) (i : Nat) : List α :=
  match l.getLast? with
  | Option.none => []
  | some last => (l.set i last).dropLast

/-- `IndexMap::remove` / `IndexSet::remove` of indexmap (an alias of
`swap_remove`): remove the entry satisfying the predicate, moving the last
entry into its place, and report whether anything was removed. -/
def swapRemove {α : Type} (p : α → Bool) (l : List α) : List α × Bool :=
  match findIdxOpt p l with
  | Option.none => (l, false)
  | some i => (swapRemoveIdx l i, true)

/-- `Units::remove` (`units/mod.rs`, delegating to `IndexMap::remove`). -/
def Units.removeTag (s : Units) (t : Tag) : Units × Bool :=
  swapRemove (fun v => v.tag = t) s

/-- `Expansion` (`bot.rs`), restricted to the fields the claims read;
`minerals` is the `FxIndexSet<u64>` in its insertion order. -/
structure Expansion where
  loc : Point2
  center : Point2
  minerals : List Tag
  geysers : List Tag
  alliance : Alliance
  base : Option Tag
deriving DecidableEq

/-- Lifecycle event as constructed in `game_state.rs` (the `Event` enum
itself is declared in the crate root, outside `src/`; its variants and
payloads are fixed by the construction sites in `game_state.rs`, in
particular `UnitDestroyed` carries an `Option<Alliance>`). -/
inductive Event
  | unitDestroyed (tag : Tag) (alliance : Option Alliance)
  | unitCreated (tag : Tag)
  | constructionStarted (tag : Tag)
  | constructionComplete (tag : Tag)
deriving DecidableEq

/-- The parts of `Bot` state read and written by the dead-units loop of
`update_state` (`game_state.rs`), with the `enemies_cache` feature enabled
as the spec's stealth-cache component requires.  The `available_frames`,
`last_units_hits` and `last_units_seen` side tables also cleared in the
owned branch are omitted: no claim reads them. -/
structure DeadCtx where
  ownedTags : List Tag
  underConstruction : List Tag
  savedHallucinations : List Tag
  cachedAll : Units
  cachedUnits : Units
  cachedWorkers : Units
  cachedStructures : Units
  cachedTownhalls : Units
  expansions : List Expansion
  enemyIsTerran : Bool
deriving DecidableEq

/-- `bot.expansions.iter_mut().any(|exp| exp.minerals.remove(u))`
(`game_state.rs`): tries each expansion in order and short-circuits at the
first one whose mineral set contained the tag. -/
def removeMineral : List Expansion → Tag → List Expansion × Bool
  | [], _ => ([], false)
  | e :: es, t =>
    let r := swapRemove (fun m => m = t) e.minerals
    if r.2 then ({ e with minerals := r.1 } :: es, true)
    else
      let rest := removeMineral es t
      (e :: rest.1, rest.2)

/-- One iteration of the dead-units loop of `update_state`
(`game_state.rs`): the owned set is consulted first, then the saved
hallucinations and the enemy cache sub-collections (structures/townhalls
only against a terran opponent, all removals performed eagerly through the
non-short-circuiting `|`), then the expansion mineral sets; an
`UnitDestroyed` event is pushed for the tag in every case. -/
def processDeadUnit (b : DeadCtx) (u : Tag) : DeadCtx × Event :=
  if b.ownedTags.any (fun x => x = u) then
    ({ b with
        ownedTags := b.ownedTags.erase u
        underConstruction := b.underConstruction.erase u },
      .unitDestroyed u (some .own))
  else
    let removedH := b.savedHallucinations.any (fun x => x = u)
    let rAll := b.cachedAll.removeTag u
    let rUnits := b.cachedUnits.removeTag u
    let rWorkers := b.cachedWorkers.removeTag u
    let rStructures :=
      if b.enemyIsTerran then b.cachedStructures.removeTag u else (b.cachedStructures, false)
    let rTownhalls :=
      if b.enemyIsTerran then b.cachedTownhalls.removeTag u else (b.cachedTownhalls, false)
    let b1 := { b with
      savedHallucinations := b.savedHallucinations.erase u
      cachedAll := rAll.1
      cachedUnits := rUnits.1
      cachedWorkers := rWorkers.1
      cachedStructures := rStructures.1
      cachedTownhalls := rTownhalls.1 }
    let removed := removedH || rAll.2 || rUnits.2 || rWorkers.2 || rStructures.2 || rTownhalls.2
    if removed then (b1, .unitDestroyed u (some .enemy))
    else
      let rexp := removeMineral b1.expansions u
      if rexp.2 then
        ({ b1 with expansions := rexp.1 }, .unitDestroyed u (some .neutral))
      else ({ b1 with expansions := rexp.1 }, .unitDestroyed u Option.none)

/-- The whole dead-units loop over the transport layer's removed-tag list. -/
def processDeadUnits : DeadCtx → List Tag → DeadCtx × List Event
  | b, [] => (b, [])
  | b, u :: us =>
    let r := processDeadUnit b u
    let rest := processDeadUnits r.1 us
    (rest.1, r.2 :: rest.2)

/-- Spec-side three-way destroyed-tag lookup, written from the spec's
words: owned set first, then cached/known enemy tags, then tracked
resource-field tags, else unknown. -/
def specDeadAlliance (b : DeadCtx) (u : Tag) : Option Alliance :=
  if b.ownedTags.any (fun x => x = u) then some .own
  else if b.savedHallucinations.any (fun x => x = u)
      || b.cachedAll.tags.any (fun x => x = u)
      || b.cachedUnits.tags.any (fun x => x = u)
      || b.cachedWorkers.tags.any (fun x => x = u)
      || (b.enemyIsTerran &&
          (b.cachedStructures.tags.any (fun x => x = u)
            || b.cachedTownhalls.tags.any (fun x => x = u))) then
    some .enemy
  else if b.expansions.any (fun e => e.minerals.any (fun x => x = u)) then some .neutral
  else Option.none

/-- Spec-side event stream: each removed tag yields one destruction event
whose alliance is the three-way lookup against the sets as currently
stored. -/
def specDeadEvents : DeadCtx → List Tag → List Event
  | _, [] => []
  | b, u :: us =>
    .unitDestroyed u (specDeadAlliance b u) :: specDeadEvents (processDeadUnit b u).1 us

theorem findIdxOpt_isSome {α : Type} (p : α → Bool) (l : List α) :
    (findIdxOpt p l).isSome = l.any p := by
  induction l with
  | nil => rfl
  | cons a as ih =>
    by_cases h : p a <;> simp [findIdxOpt, h, ih]

theorem swapRemove_snd {α : Type} (p : α → Bool) (l : List α) :
    (swapRemove p l).2 = l.any p := by
  have h := findIdxOpt_isSome p l
  unfold swapRemove
  rcases hf : findIdxOpt p l with _ | i
  · rw [hf] at h
    simpa using h
  · rw [hf] at h
    simpa using h

theorem removeTag_snd (s : Units) (t : Tag) :
    (s.removeTag t).2 = s.tags.any (fun x => x = t) := by
  unfold Units.removeTag
  rw [swapRemove_snd]
  induction s with
  | nil => rfl
  | cons v vs ih => simp [Units.tags, ih]

theorem removeMineral_snd (es : List Expansion) (t : Tag) :
    (removeMineral es t).2 = es.any (fun e => e.minerals.any (fun x => x = t)) := by
  induction es with
  | nil => rfl
  | cons e rest ih =>
    unfold removeMineral
    have hs := swapRemove_snd (fun m => decide (m = t)) e.minerals
    by_cases h : (swapRemove (fun m => decide (m = t)) e.minerals).2
    · rw [h] at hs
      simp [h, ← hs]
    · rw [Bool.not_eq_true] at h
      rw [h] at hs
      simp [h, ← hs, ih]

theorem processDeadUnit_event (b : DeadCtx) (u : Tag) :
    (processDeadUnit b u).2 = .unitDestroyed u (specDeadAlliance b u) := by
  unfold processDeadUnit specDeadAlliance
  by_cases h0 : b.ownedTags.any (fun x => x = u)
  · simp [h0]
  · simp only [h0, Bool.false_eq_true, if_false]
    have hAll := removeTag_snd b.cachedAll u
    have hUnits := removeTag_snd b.cachedUnits u
    have hWorkers := removeTag_snd b.cachedWorkers u
    have hStr := removeTag_snd b.cachedStructures u
    have hTh := removeTag_snd b.cachedTownhalls u
    have hremoved :
        (b.savedHallucinations.any (fun x => x = u) || (b.cachedAll.removeTag u).2
          || (b.cachedUnits.removeTag u).2 || (b.cachedWorkers.removeTag u).2
          || (if b.enemyIsTerran then b.cachedStructures.removeTag u
              else (b.cachedStructures, false)).2
          || (if b.enemyIsTerran then b.cachedTownhalls.removeTag u
              else (b.cachedTownhalls, false)).2)
        = (b.savedHallucinations.any (fun x => x = u)
          || b.cachedAll.tags.any (fun x => x = u)
          || b.cachedUnits.tags.any (fun x => x = u)
          || b.cachedWorkers.tags.any (fun x => x = u)
          || (b.enemyIsTerran &&
              (b.cachedStructures.tags.any (fun x => x = u)
                || b.cachedTownhalls.tags.any (fun x => x = u)))) := by
      cases ht : b.enemyIsTerran <;>
        simp [ht, hAll, hUnits, hWorkers, hStr, hTh, Bool.or_assoc, Bool.and_or_distrib_left]
    by_cases hr : (b.savedHallucinations.any (fun x => x = u)
          || b.cachedAll.tags.any (fun x => x = u)
          || b.cachedUnits.tags.any (fun x => x = u)
          || b.cachedWorkers.tags.any (fun x => x = u)
          || (b.enemyIsTerran &&
              (b.cachedStructures.tags.any (fun x => x = u)
                || b.cachedTownhalls.tags.any (fun x => x = u))))
    · rw [hr] at hremoved
      simp [hremoved, hr]
    · rw [Bool.not_eq_true] at hr
      rw [hr] at hremoved
      have hexp := removeMineral_snd b.expansions u
      by_cases he : b.expansions.any (fun e => e.minerals.any (fun x => x = u))
      · rw [he] at hexp
        simp [hremoved, hr, hexp, he]
      · rw [Bool.not_eq_true] at he
        rw [he] at hexp
        simp [hremoved, hr, hexp, he]

/-- C2 (amended): every tag of the removed-tag list yields exactly one
destruction event whose reported alliance is the spec's three-way lookup
(owned, then cached/known enemy, then tracked resource field) against the
sets as stored when the tag is processed; when none of the three lookups
matches, an event is still emitted, with unknown (`None`) alliance, rather
than no event. -/
theorem dead_units_three_way_lookup (b : DeadCtx) (ds : List Tag) :
    (processDeadUnits b ds).2 = specDeadEvents b ds := by
  induction ds generalizing b with
  | nil => rfl
  | cons u us ih =>
    simp only [processDeadUnits, specDeadEvents]
    rw [processDeadUnit_event, ih]

/-- C2 counterexample: a removed tag matched by none of the three lookups
(all stored sets empty) still emits exactly one destruction event, carrying
alliance `None` — the claim mandates that no event be emitted. -/
theorem dead_event_unknown_counterexample :
    specDeadAlliance ⟨[], [], [], [], [], [], [], [], [], false⟩ 42 = Option.none
    ∧ (processDeadUnits ⟨[], [], [], [], [], [], [], [], [], false⟩ [42]).2
        = [.unitDestroyed 42 Option.none] := by
  constructor
  · rfl
  · rfl

/-- Comparison used by `minerals.sort_by` in `Bot::prepare_start`
(`bot.rs`): order two mineral tags by squared distance of the mineral's
position to the expansion's placement point. -/
def mineralLe (pos : Tag → Point2) (loc : Point2) (a b : Tag) : Prop :=
  Point2.distSq (pos a) loc ≤ Point2.distSq (pos b) loc

instance mineralLeDec (pos : Tag → Point2) (loc : Point2) :
    DecidableRel (mineralLe pos loc) := fun _ _ =>
  inferInstanceAs (Decidable (_ ≤ _))

instance mineralLeTotal (pos : Tag → Point2) (loc : Point2) :
    IsTotal Tag (mineralLe pos loc) :=
  ⟨fun _ _ => le_total _ _⟩

instance mineralLeTrans (pos : Tag → Point2) (loc : Point2) :
    IsTrans Tag (mineralLe pos loc) :=
  ⟨fun _ _ _ => le_trans⟩

/-- The mineral ordering pass of `Bot::prepare_start` (`bot.rs`): the
expansion's mineral tags sorted by ascending distance to the chosen
placement point.  `IndexSet::sort_by` is a stable sort; it is embedded as
the stable insertion sort, which produces the same list. -/
def sortMinerals (tags : List Tag) (pos : Tag → Point2) (loc : Point2) : List Tag :=
  List.insertionSort (mineralLe pos loc) tags

/-- Strict ascending-distance ordering of a mineral list, as the claim
states it. -/
def strictAscending (l : List Tag) (pos : Tag → Point2) (loc : Point2) : Prop :=
  l.Pairwise (fun a b => Point2.distSq (pos a) loc < Point2.distSq (pos b) loc)

/-- C3 (amended): right after initialization the minerals of each expansion
are sorted by non-decreasing (not necessarily strictly increasing) distance
to the expansion's placement point.  The ordering is an initialization-time
property only: the removal of a destroyed mineral goes through indexmap's
swap-removal, which moves the last mineral into the removed slot and may
break the order (see the counterexample). -/
theorem minerals_sorted_after_init (tags : List Tag) (pos : Tag → Point2) (loc : Point2) :
    (sortMinerals tags pos loc).Sorted (mineralLe pos loc) :=
  List.sorted_insertionSort _ tags

/-- C3 counterexample: (a) two equidistant minerals defeat strictness
already at initialization; (b) after a tick whose removed-tag list kills
the nearest mineral of a sorted three-mineral expansion, the stored order
is `[far, mid]` — not ascending, not even non-strictly. -/
theorem minerals_order_counterexample :
    ¬ strictAscending
        (sortMinerals [1, 4] (fun t => if t = 4 then ⟨-1, 0⟩ else ⟨(t : ℚ), 0⟩) ⟨0, 0⟩)
        (fun t => if t = 4 then ⟨-1, 0⟩ else ⟨(t : ℚ), 0⟩) ⟨0, 0⟩
    ∧ sortMinerals [3, 1, 2] (fun t => ⟨(t : ℚ), 0⟩) ⟨0, 0⟩ = [1, 2, 3]
    ∧ ((processDeadUnits
          ⟨[], [], [], [], [], [], [], [],
            [⟨⟨0, 0⟩, ⟨2, 0⟩, [1, 2, 3], [], .neutral, Option.none⟩], false⟩
          [1]).1.expansions.map Expansion.minerals) = [[3, 2]]
    ∧ ¬ strictAscending [3, 2] (fun t => ⟨(t : ℚ), 0⟩) ⟨0, 0⟩
    ∧ ¬ ([3, 2] : List Tag).Sorted (mineralLe (fun t => ⟨(t : ℚ), 0⟩) ⟨0, 0⟩) := by
  refine ⟨?_, ?_, by decide, ?_, ?_⟩
  · norm_num [sortMinerals, List.insertionSort, List.orderedInsert, mineralLe,
      Point2.distSq, strictAscending]
  · norm_num [sortMinerals, List.insertionSort, List.orderedInsert, mineralLe, Point2.distSq]
  · norm_num [strictAscending, Point2.distSq]
  · norm_num [List.Sorted, mineralLe, Point2.distSq]

/-- The owned (or enemy) half of the typed collections (`PlayerUnits` in
`units/mod.rs`). -/
structure PlayerUnits where
  all : Units
  units : Units
  structures : Units
  townhalls : Units
  workers : Units
  gasBuildings : Units
  larvas : Units
  placeholders : Units
deriving DecidableEq

/-- The collections at the start of the pass (`AllUnits::clear`). -/
def PlayerUnits.empty : PlayerUnits := ⟨[], [], [], [], [], [], [], []⟩

/-- Ground-townhall arm of the `match` in `Bot::update_units` (`bot.rs`). -/
def isTownhallId (t : UnitTypeId) : Bool :=
  t = .commandCenter || t = .orbitalCommand || t = .planetaryFortress ||
    t = .hatchery || t = .lair || t = .hive || t = .nexus

/-- Flying-townhall arm of the same `match`. -/
def isFlyingTownhallId (t : UnitTypeId) : Bool :=
  t = .commandCenterFlying || t = .orbitalCommandFlying

/-- Gas-building arm of the same `match`. -/
def isGasBuildingId (t : UnitTypeId) : Bool :=
  t = .refinery || t = .refineryRich || t = .assimilator || t = .assimilatorRich ||
    t = .extractor || t = .extractorRich

/-- The `Alliance::Own` arm of the classification pass of
`Bot::update_units` (`bot.rs`), projected onto the `units.my` collections.
The techlab/reactor tag sets, the max-cooldown table and the
expansion-occupancy map the same arm feeds are not `PlayerUnits` data;
units of other alliances leave `units.my` untouched, so they fall into the
identity branch. -/
def classifyStep (p : PlayerUnits) (u : Unit) : PlayerUnits :=
  if u.alliance = .own then
    let p := { p with all := p.all.push u }
    if u.isStructure then
      if u.isPlaceholderU then { p with placeholders := p.placeholders.push u }
      else
        let p := { p with structures := p.structures.push u }
        if isTownhallId u.typeId || isFlyingTownhallId u.typeId then
          { p with townhalls := p.townhalls.push u }
        else if isGasBuildingId u.typeId then
          { p with gasBuildings := p.gasBuildings.push u }
        else p
    else
      let p := { p with units := p.units.push u }
      if u.isWorker then { p with workers := p.workers.push u }
      else if u.typeId = .larva then { p with larvas := p.larvas.push u }
      else p
  else p

/-- The whole per-tick classification pass over the raw unit list. -/
def classifyAll (us : List Unit) : PlayerUnits :=
  us.foldl classifyStep PlayerUnits.empty

/-- The owned-aggregate partition property: a tag is in the aggregate `all`
collection iff it is in at least one owned sub-collection. -/
def partitionInv (p : PlayerUnits) : Prop :=
  ∀ t : Tag, t ∈ p.all.tags
    ↔ (t ∈ p.units.tags ∨ t ∈ p.structures.tags ∨ t ∈ p.townhalls.tags
        ∨ t ∈ p.workers.tags ∨ t ∈ p.gasBuildings.tags ∨ t ∈ p.larvas.tags
        ∨ t ∈ p.placeholders.tags)

theorem mem_tags_push (s : Units) (u : Unit) (t : Tag) :
    t ∈ (s.push u).tags ↔ (t = u.tag ∨ t ∈ s.tags) := by
  unfold Units.push
  by_cases h : s.any (fun v => v.tag = u.tag)
  · have hmem : u.tag ∈ s.tags := by
      rcases List.any_eq_true.mp h with ⟨v, hv, hvt⟩
      simp only [decide_eq_true_eq] at hvt
      exact hvt ▸ List.mem_map_of_mem Unit.tag hv
    have htags : Units.tags (s.map (fun v => if v.tag = u.tag then u else v)) = s.tags := by
      unfold Units.tags
      rw [List.map_map]
      apply List.map_congr_left
      intro v _
      by_cases hv : v.tag = u.tag <;> simp [Function.comp, hv]
    rw [if_pos h, htags]
    constructor
    · exact fun hm => Or.inr hm
    · rintro (rfl | hm)
      · exact hmem
      · exact hm
  · rw [if_neg h]
    unfold Units.tags
    rw [List.map_append]
    simp [or_comm]

set_option maxHeartbeats 1200000 in
theorem classifyStep_inv (p : PlayerUnits) (u : Unit) (h : partitionInv p) :
    partitionInv (classifyStep p u) := by
  intro t
  unfold classifyStep
  by_cases ha : u.alliance = .own
  · by_cases hs : u.isStructure
    · by_cases hp : u.isPlaceholderU
      · simp only [ha, if_true, hs, hp, if_pos rfl]
        simp [mem_tags_push, h t]
        tauto
      · by_cases hth : (isTownhallId u.typeId || isFlyingTownhallId u.typeId)
        · simp only [ha, if_true, hs, hp, hth]
          simp [mem_tags_push, h t]
          tauto
        · by_cases hg : isGasBuildingId u.typeId
          · simp only [ha, if_true, hs, hp, hth, hg]
            simp [mem_tags_push, h t]
            tauto
          · simp only [ha, if_true, hs, hp, hth, hg]
            simp [mem_tags_push, h t]
            tauto
    · by_cases hw : u.isWorker
      · simp only [ha, if_true, hs, hw]
        simp [mem_tags_push, h t]
        tauto
      · by_cases hl : u.typeId = .larva
        · simp only [ha, if_true, hs, hw, hl]
          simp [mem_tags_push, h t]
          tauto
        · simp only [ha, if_true, hs, hw, hl]
          simp [mem_tags_push, h t]
          tauto
  · simp only [ha]
    simp [h t]

/-- C9: after every classification pass, the tag set of the owned aggregate
collection equals the union of the tag sets of the owned sub-collections
(units, structures, townhalls, workers, gas buildings, larvas,
placeholders). -/
theorem owned_partition (us : List Unit) : partitionInv (classifyAll us) := by
  have step : ∀ (l : List Unit) (p : PlayerUnits),
      partitionInv p → partitionInv (l.foldl classifyStep p) := by
    intro l
    induction l with
    | nil => exact fun p hp => hp
    | cons u rest ih =>
      intro p hp
      exact ih _ (classifyStep_inv p u hp)
  have base : partitionInv PlayerUnits.empty := by
    intro t
    simp [PlayerUnits.empty, Units.tags]
  exact step us PlayerUnits.empty base

/-- `FxHashSet::insert` on a tag list kept duplicate-free. -/
def insertTag (l : List Tag) (t : Tag) : List Tag :=
  if l.any (fun x => x = t) then l else l ++ [t]

/-- The tag carried by a lifecycle event. -/
def eventTag : Event → Tag
  | .unitDestroyed x _ => x
  | .unitCreated x => x
  | .constructionStarted x => x
  | .constructionComplete x => x

/-- Whether an event concerns the given tag. -/
def mentions (e : Event) (t : Tag) : Bool := eventTag e = t

/-- Events pushed for one `(tag, unit)` pair of `units.my.all` by the
owned-diff loop of `update_state` (`game_state.rs`): a newly appearing
structure that is neither a placeholder nor a `KD8Charge` emits
`ConstructionComplete` if ready and `ConstructionStarted` otherwise (and
nothing at all for placeholders and KD8Charges); a newly appearing
non-structure emits `UnitCreated`; a previously known tag in the
under-construction set emits `ConstructionComplete` once ready. -/
def unitTickEvents (owned under : List Tag) (u : Unit) : List Event :=
  if !(owned.any (fun x => x = u.tag)) then
    if u.isStructure then
      if !(u.isPlaceholderU || u.typeId = .kd8Charge) then
        if u.isReady then [.constructionComplete u.tag]
        else [.constructionStarted u.tag]
      else []
    else [.unitCreated u.tag]
  else if under.any (fun x => x = u.tag) && u.isReady then
    [.constructionComplete u.tag]
  else []

/-- The event stream of the owned-diff loop, in iteration order. -/
def tickEvents (myAll : List Unit) (owned under : List Tag) : List Event :=
  (myAll.map (unitTickEvents owned under)).flatten

/-- The `owned_tags` insertions performed after the loop: every tag that
first appeared this tick enters the owned set. -/
def newOwnedTags (myAll : List Unit) (owned : List Tag) : List Tag :=
  ((myAll.filter (fun u => !(owned.any (fun x => x = u.tag)))).map Unit.tag).foldl
    insertTag owned

/-- The tags collected into the loop's `under_construction` list (the
`ConstructionStarted` branch). -/
def tickStarted (myAll : List Unit) (owned : List Tag) : List Tag :=
  ((myAll.filter (fun u => !(owned.any (fun x => x = u.tag)) && u.isStructure
      && !(u.isPlaceholderU || u.typeId = .kd8Charge) && !u.isReady)).map Unit.tag)

/-- The tags collected into the loop's `construction_complete` list. -/
def tickCompleted (myAll : List Unit) (owned under : List Tag) : List Tag :=
  ((myAll.filter (fun u => owned.any (fun x => x = u.tag)
      && under.any (fun x => x = u.tag) && u.isReady)).map Unit.tag)

/-- The under-construction set after the loop: started tags inserted, then
completed tags removed (`game_state.rs`, the two `for` loops after the
diff). -/
def newUnder (myAll : List Unit) (owned under : List Tag) : List Tag :=
  (tickCompleted myAll owned under).foldl List.erase
    ((tickStarted myAll owned).foldl insertTag under)

theorem mem_insertTag (l : List Tag) (x t : Tag) :
    t ∈ insertTag l x ↔ (t = x ∨ t ∈ l) := by
  unfold insertTag
  by_cases h : l.any (fun y => y = x)
  · have hx : x ∈ l := by
      rcases List.any_eq_true.mp h with ⟨y, hy, hyx⟩
      simp only [decide_eq_true_eq] at hyx
      exact hyx ▸ hy
    rw [if_pos h]
    constructor
    · exact Or.inr
    · rintro (rfl | hm)
      · exact hx
      · exact hm
  · rw [if_neg h]
    simp [or_comm]

theorem nodup_insertTag (l : List Tag) (x : Tag) (h : l.Nodup) :
    (insertTag l x).Nodup := by
  unfold insertTag
  by_cases hx : l.any (fun y => y = x)
  · rw [if_pos hx]
    exact h
  · rw [if_neg hx]
    rw [List.nodup_append]
    refine ⟨h, List.nodup_singleton x, ?_⟩
    intro a ha hax
    simp only [List.mem_singleton] at hax
    subst hax
    exact hx (List.any_eq_true.mpr ⟨a, ha, by simp⟩)

theorem mem_foldl_insertTag (xs : List Tag) (l : List Tag) (t : Tag) :
    t ∈ xs.foldl insertTag l ↔ (t ∈ l ∨ t ∈ xs) := by
  induction xs generalizing l with
  | nil => simp
  | cons x rest ih =>
    rw [List.foldl_cons, ih]
    rw [mem_insertTag]
    simp [List.mem_cons]
    tauto

theorem nodup_foldl_insertTag (xs : List Tag) (l : List Tag) (h : l.Nodup) :
    (xs.foldl insertTag l).Nodup := by
  induction xs generalizing l with
  | nil => exact h
  | cons x rest ih => exact ih _ (nodup_insertTag l x h)

theorem mem_foldl_erase (xs : List Tag) (l : List Tag) (t : Tag) (h : l.Nodup) :
    t ∈ xs.foldl List.erase l ↔ (t ∈ l ∧ t ∉ xs) := by
  induction xs generalizing l with
  | nil => simp
  | cons x rest ih =>
    rw [List.foldl_cons, ih _ (h.erase x)]
    rw [h.mem_erase_iff]
    simp [List.mem_cons]
    tauto

theorem unitTickEvents_tag (owned under : List Tag) (v : Unit) :
    ∀ e ∈ unitTickEvents owned under v, eventTag e = v.tag := by
  intro e he
  unfold unitTickEvents at he
  split at he
  · split at he
    · split at he
      · split at he <;> simp_all [eventTag]
      · simp at he
    · simp_all [eventTag]
  · split at he
    · simp_all [eventTag]
    · simp at he

theorem filter_unitTickEvents (owned under : List Tag) (v : Unit) (t : Tag) :
    (unitTickEvents owned under v).filter (fun e => mentions e t)
      = if v.tag = t then unitTickEvents owned under v else [] := by
  by_cases hv : v.tag = t
  · rw [if_pos hv]
    apply List.filter_eq_self.mpr
    intro e he
    simp [mentions, unitTickEvents_tag owned under v e he, hv]
  · rw [if_neg hv]
    apply List.filter_eq_nil_iff.mpr
    intro e he
    simp [mentions, unitTickEvents_tag owned under v e he, hv]

theorem filter_tickEvents_not_mem (myAll : List Unit) (owned under : List Tag) (t : Tag)
    (h : ∀ v ∈ myAll, v.tag ≠ t) :
    (tickEvents myAll owned under).filter (fun e => mentions e t) = [] := by
  induction myAll with
  | nil => rfl
  | cons v rest ih =>
    unfold tickEvents at *
    rw [List.map_cons, List.flatten_cons, List.filter_append]
    rw [filter_unitTickEvents, if_neg (h v (List.mem_cons_self v rest))]
    rw [List.nil_append]
    exact ih (fun v' hv' => h v' (List.mem_cons_of_mem v hv'))

theorem filter_tickEvents (myAll : List Unit) (owned under : List Tag) (u : Unit)
    (hnodup : (myAll.map Unit.tag).Nodup) (hu : u ∈ myAll) :
    (tickEvents myAll owned under).filter (fun e => mentions e u.tag)
      = unitTickEvents owned under u := by
  induction myAll with
  | nil => cases hu
  | cons v rest ih =>
    rw [List.map_cons, List.nodup_cons] at hnodup
    unfold tickEvents
    rw [List.map_cons, List.flatten_cons, List.filter_append]
    rcases List.mem_cons.mp hu with rfl | hu'
    · rw [filter_unitTickEvents, if_pos rfl]
      have hrest : (tickEvents rest owned under).filter (fun e => mentions e u.tag) = [] := by
        apply filter_tickEvents_not_mem
        intro v' hv' hvt
        exact hnodup.1 (hvt ▸ List.mem_map_of_mem Unit.tag hv')
      unfold tickEvents at hrest
      rw [hrest, List.append_nil]
    · have hvt : v.tag ≠ u.tag := by
        intro hvu
        exact hnodup.1 (hvu ▸ List.mem_map_of_mem Unit.tag hu')
      rw [filter_unitTickEvents, if_neg hvt, List.nil_append]
      exact ih hnodup.2 hu'

/-- C8 (amended): for a newly appearing owned structure that is neither a
placeholder nor a `KD8Charge` and that `is_ready` rejects
(`|build_progress − 1| ≥ f32::EPSILON`, rather than the claim's
`build_progress < 1`), the tick emits exactly one `ConstructionStarted`
event for that tag and nothing else about it, and the tag enters the
owned and under-construction sets; for an already-known under-construction
tag whose unit is now ready, the tick emits exactly one
`ConstructionComplete` event and removes the tag from the
under-construction set.  Placeholders and KD8Charges emit no lifecycle
event at all (see the counterexample). -/
theorem construction_lifecycle (myAll : List Unit) (owned under : List Tag) (u : Unit)
    (hnodup : (myAll.map Unit.tag).Nodup) (hu : u ∈ myAll) (hund : under.Nodup) :
    (u.tag ∉ owned → u.isStructure → ¬ u.isPlaceholderU → ¬ u.typeId = .kd8Charge →
      ¬ u.isReady →
      ((tickEvents myAll owned under).filter (fun e => mentions e u.tag)
          = [.constructionStarted u.tag]
        ∧ u.tag ∈ newUnder myAll owned under
        ∧ u.tag ∈ newOwnedTags myAll owned))
    ∧ (u.tag ∈ owned → u.tag ∈ under → u.isReady →
      ((tickEvents myAll owned under).filter (fun e => mentions e u.tag)
          = [.constructionComplete u.tag]
        ∧ u.tag ∉ newUnder myAll owned under)) := by
  have howned : ∀ (l : List Tag) (w : Tag), (l.any (fun x => x = w)) = true ↔ w ∈ l := by
    intro l w
    simp [List.any_eq_true]
  constructor
  · intro ho hs hp hk hr
    have hoany : (owned.any (fun x => x = u.tag)) = false := by
      rw [← Bool.not_eq_true, howned]
      exact ho
    have hrb : u.isReady = false := by
      simpa using hr
    have hpb : u.isPlaceholderU = false := by
      simpa using hp
    have hpk : (u.isPlaceholderU || decide (u.typeId = .kd8Charge)) = false := by
      simp [hpb, hk]
    have hev : unitTickEvents owned under u = [.constructionStarted u.tag] := by
      simp [unitTickEvents, hoany, hs, hpk, hrb]
    refine ⟨?_, ?_, ?_⟩
    · rw [filter_tickEvents myAll owned under u hnodup hu, hev]
    · unfold newUnder
      rw [mem_foldl_erase _ _ _ (nodup_foldl_insertTag _ _ hund)]
      constructor
      · rw [mem_foldl_insertTag]
        right
        unfold tickStarted
        apply List.mem_map_of_mem Unit.tag
        rw [List.mem_filter]
        refine ⟨hu, ?_⟩
        simp [hoany, hs, hpk, hrb]
      · intro hmem
        unfold tickCompleted at hmem
        rcases List.mem_map.mp hmem with ⟨v, hv, hvt⟩
        rw [List.mem_filter] at hv
        have hvo : v.tag ∈ owned := by
          have h2 := hv.2
          simp only [Bool.and_eq_true] at h2
          exact (howned owned v.tag).mp h2.1.1
        exact ho (hvt ▸ hvo)
    · unfold newOwnedTags
      rw [mem_foldl_insertTag]
      right
      apply List.mem_map_of_mem Unit.tag
      rw [List.mem_filter]
      exact ⟨hu, by simp [hoany]⟩
  · intro ho hun hr
    have hoany : (owned.any (fun x => x = u.tag)) = true := (howned owned u.tag).mpr ho
    have hunany : (under.any (fun x => x = u.tag)) = true := (howned under u.tag).mpr hun
    have hev : unitTickEvents owned under u = [.constructionComplete u.tag] := by
      simp [unitTickEvents, hoany, hunany, hr]
    refine ⟨?_, ?_⟩
    · rw [filter_tickEvents myAll owned under u hnodup hu, hev]
    · unfold newUnder
      rw [mem_foldl_erase _ _ _ (nodup_foldl_insertTag _ _ hund)]
      intro hmem
      apply hmem.2
      unfold tickCompleted
      apply List.mem_map_of_mem Unit.tag
      rw [List.mem_filter]
      exact ⟨hu, by simp [hoany, hunany, hr]⟩

/-- Witness for C8 at a concrete first-appearing incomplete supply depot
(build progress `0.4`) and a concrete completing barracks. -/
theorem construction_lifecycle_witness :
    ((tickEvents
        [{ tag := 5, typeId := .supplyDepot, alliance := .own, position := ⟨1, 1⟩,
           radius := 1, buildProgress := 2/5, displayType := .visible,
           isFlying := false, isBurrowed := false, isCloaked := false,
           isRevealed := false, isHallucination := false, structureAttr := true,
           workerAttr := false, detectRange := 0, isPowered := false }] [] []).filter
        (fun e => mentions e 5)
      = [.constructionStarted 5])
    ∧ (5 : Tag) ∈ newUnder
        [{ tag := 5, typeId := .supplyDepot, alliance := .own, position := ⟨1, 1⟩,
           radius := 1, buildProgress := 2/5, displayType := .visible,
           isFlying := false, isBurrowed := false, isCloaked := false,
           isRevealed := false, isHallucination := false, structureAttr := true,
           workerAttr := false, detectRange := 0, isPowered := false }] [] [] := by
  have hready : ¬ Unit.isReady
      { tag := 5, typeId := .supplyDepot, alliance := .own, position := ⟨1, 1⟩,
        radius := 1, buildProgress := 2/5, displayType := .visible,
        isFlying := false, isBurrowed := false, isCloaked := false,
        isRevealed := false, isHallucination := false, structureAttr := true,
        workerAttr := false, detectRange := 0, isPowered := false } = true := by
    simp only [Unit.isReady, f32Eps, decide_eq_true_eq, not_lt]
    rw [abs_sub_comm, show (1 : ℚ) - 2/5 = 3/5 by norm_num, abs_of_pos (by norm_num)]
    norm_num
  have h := construction_lifecycle
    [{ tag := 5, typeId := .supplyDepot, alliance := .own, position := ⟨1, 1⟩,
       radius := 1, buildProgress := 2/5, displayType := .visible,
       isFlying := false, isBurrowed := false, isCloaked := false,
       isRevealed := false, isHallucination := false, structureAttr := true,
       workerAttr := false, detectRange := 0, isPowered := false }] [] []
    { tag := 5, typeId := .supplyDepot, alliance := .own, position := ⟨1, 1⟩,
      radius := 1, buildProgress := 2/5, displayType := .visible,
      isFlying := false, isBurrowed := false, isCloaked := false,
      isRevealed := false, isHallucination := false, structureAttr := true,
      workerAttr := false, detectRange := 0, isPowered := false }
    (by simp) (by simp) List.nodup_nil
  have hres := h.1 (by simp) rfl (by simp [Unit.isPlaceholderU]) (by simp) hready
  exact ⟨hres.1, hres.2.1⟩

/-- C8 counterexample: (a) a first-appearing owned placeholder structure
with build progress `0.4 < 1` emits no event at all — in particular not
the `ConstructionStarted` the claim requires; (b) a first-appearing owned
structure with build progress `1 − 2⁻²⁴ < 1` counts as ready under the
`f32::EPSILON` tolerance and emits `ConstructionComplete`, not
`ConstructionStarted`. -/
theorem construction_events_counterexample :
    (tickEvents
        [{ tag := 5, typeId := .supplyDepot, alliance := .own, position := ⟨1, 1⟩,
           radius := 1, buildProgress := 2/5, displayType := .placeholder,
           isFlying := false, isBurrowed := false, isCloaked := false,
           isRevealed := false, isHallucination := false, structureAttr := true,
           workerAttr := false, detectRange := 0, isPowered := false }] [] [] = [])
    ∧ ((2 : ℚ)/5 < 1)
    ∧ (tickEvents
        [{ tag := 6, typeId := .supplyDepot, alliance := .own, position := ⟨1, 1⟩,
           radius := 1, buildProgress := 1 - 1/2^24, displayType := .visible,
           isFlying := false, isBurrowed := false, isCloaked := false,
           isRevealed := false, isHallucination := false, structureAttr := true,
           workerAttr := false, detectRange := 0, isPowered := false }] [] []
      = [.constructionComplete 6])
    ∧ ((1 : ℚ) - 1/2^24 < 1) := by
  have key : ∀ u : Unit, u.isStructure = true → u.isPlaceholderU = false →
      ¬ u.typeId = .kd8Charge → u.isReady = true →
      tickEvents [u] [] [] = [.constructionComplete u.tag] := by
    intro u h1 h2 h3 h4
    simp [tickEvents, unitTickEvents, h1, h2, h3, h4]
  refine ⟨rfl, by norm_num, ?_, by norm_num⟩
  apply key
  · rfl
  · rfl
  · simp
  · simp only [Unit.isReady, f32Eps, decide_eq_true_eq]
    rw [abs_sub_lt_iff]
    constructor <;> norm_num

/-- Area-scan effect (`Effect` of `game_state.rs`), restricted to the
fields the detection-coverage test reads; the stealth loop has already
filtered for own `ScannerSweep` effects. -/
structure EffectScan where
  positions : List Point2
  radius : ℚ
deriving DecidableEq

/-- The `is_invisible` helper of `Bot::update_units` (`bot.rs`): true iff
no detector and no scan covers the unit's position within
`unit radius + gap + detector radius + detection range` (resp. the scan's
radius).  The source's early-return loops are the two negated `any`s. -/
def isInvisible (u : Unit) (detectors : List Unit) (scans : List EffectScan) (gap : ℚ) : Bool :=
  let additional := u.radius + gap
  !(detectors.any (fun d =>
      isCloser (additional + d.radius + d.detectRange) u.position d.position))
  && !(scans.any (fun s =>
      s.positions.any (fun p => isCloser (additional + s.radius) u.position p)))

/-- Wrapping `isize → usize` cast (`as usize` in the source). -/
def intToUsize (i : Int) : Nat := (i % (2 ^ 64)).toNat

/-- The integer offsets `-r..=r`. -/
def rangeList (r : Nat) : List Int :=
  (List.range (2 * r + 1)).map (fun i => (i : Int) - (r : Int))

/-- `Bot::is_surround_visible` (`bot.rs`): every cell of the
`(2r+1) × (2r+1)` square around the position's cell is currently visible.
The source adds the offsets with `isize::saturating_add` (saturation cannot
trigger at map coordinates) and casts back to `usize` with wrapping. -/
def surroundVisible (vis : VisMap) (p : Point2) (range : Nat) : Bool :=
  let c := cellOf p
  (rangeList range).all (fun x => (rangeList range).all (fun y =>
    visAt vis (intToUsize (x + (c.1 : Int)), intToUsize (y + (c.2 : Int)))))

/-- The `is_drone_close` closure of the burrow heuristic (`bot.rs`): a
structure with build progress below `0.1`, or a ready extractor, within
`unit radius + structure radius + 1.0`. -/
def isDroneClose (u s : Unit) : Bool :=
  (decide (s.buildProgress < 1/10) || (s.typeId = .extractor && s.isReady))
    && isCloser (u.radius + s.radius + 1) u.position s.position

/-- The `is_transport_close` closure (`bot.rs`): a ready transport-class
unit within `unit radius + transport radius + 1.5`. -/
def isTransportClose (u s : Unit) : Bool :=
  ((s.typeId = .medivac || s.typeId = .warpPrism || s.typeId = .warpPrismPhasing ||
      s.typeId = .overlordTransport) && s.isReady)
    && isCloser (u.radius + s.radius + 3/2) u.position s.position

/-- The unburrowable changeling-class type list of the burrow heuristic
(`bot.rs`). -/
def changelingLike (t : UnitTypeId) : Bool :=
  t = .changeling || t = .changelingZealot || t = .changelingMarineShield ||
    t = .changelingMarine || t = .changelingZerglingWings || t = .changelingZergling ||
    t = .broodling || t = .larva || t = .egg

/-- Modelled from the spec: the `BURROWED_IDS` table (`crate::consts`, not
under `src/`) mapping each burrow-capable zerg type to its burrowed
variant; types without a burrowed variant are absent. -/
def burrowedId : UnitTypeId → Option UnitTypeId
  | .drone => some .droneBurrowed
  | .roach => some .roachBurrowed
  | .zergling => some .zerglingBurrowed
  | _ => Option.none

/-- The per-tick environment of the stealth-cache update in
`Bot::update_units` (`bot.rs`): the current visible enemy set, the enemy
unit/structure collections consulted by the adjacency closures, the own
detectors, the own scanner sweeps, the visibility map and the enemy race. -/
structure StealthCtx where
  currentEnemyTags : List Tag
  enemyUnits : Units
  enemyStructures : Units
  detectors : Units
  scans : List EffectScan
  visibility : VisMap
  enemyIsZerg : Bool

/-- Outcome of the stealth loop for one cached entry. -/
inductive CacheDecision
  | keep
  | markCloaked
  | markBurrowed
  | markHidden
  | evict
deriving DecidableEq

/-- Per-cached-entry decision of the stealth-cache loop in
`Bot::update_units` (`bot.rs`, `enemies_cache` block), mirroring the nested
conditionals.  Note the *negation* around the circumstantial conditions: a
drone next to a just-started structure or a ready extractor, and an
unburrowable changeling-class unit next to a ready transport, are excluded
from the presumed-burrowed classification and fall into eviction. -/
def cacheDecision (ctx : StealthCtx) (u : Unit) : CacheDecision :=
  if ctx.currentEnemyTags.any (fun x => x = u.tag) then
    if u.isBurrowed && u.isRevealed && isInvisible u ctx.detectors ctx.scans 0 then
      .markCloaked
    else .keep
  else if u.isFlying || !u.isStructure then
    if visAt ctx.visibility (cellOf u.position) then
      if u.isVisibleU then
        if ctx.enemyIsZerg
            && !(u.isFlying
              || (changelingLike u.typeId
                  && ctx.enemyUnits.any (fun s => isTransportClose u s))
              || (u.typeId = .drone
                  && ctx.enemyStructures.any (fun s => isDroneClose u s)))
            && isInvisible u ctx.detectors ctx.scans 0
            && surroundVisible ctx.visibility u.position 2 then
          .markBurrowed
        else .evict
      else if !(u.isBurrowed && isInvisible u ctx.detectors ctx.scans 0) then .evict
      else .keep
    else .markHidden
  else .evict

/-- Application of one decision to the `cached.all` collection (`bot.rs`,
the four loops after the classification): eviction swap-removes the entry
(the same tag is also removed from the units/workers sub-caches, and from
structures/townhalls against a terran enemy — collections not modelled
separately here); a presumed-burrowed entry is mutated in place when a
burrowed variant exists (display Hidden, burrowed type, burrow/cloak flags
set, revealed cleared); a hidden entry gets display Hidden; cloaked entries
get display Hidden with cloak set and revealed cleared. -/
def applyDecision (cache : Units) (u : Unit) : CacheDecision → Units
  | .evict => (cache.removeTag u.tag).1
  | .markCloaked =>
    cache.map (fun v => if v.tag = u.tag then
      { v with displayType := .hidden, isCloaked := true, isRevealed := false } else v)
  | .markBurrowed =>
    match burrowedId u.typeId with
    | some b =>
      cache.map (fun v => if v.tag = u.tag then
        { v with displayType := .hidden, typeId := b, isBurrowed := true,
                 isCloaked := true, isRevealed := false } else v)
    | Option.none => cache
  | .markHidden =>
    cache.map (fun v => if v.tag = u.tag then { v with displayType := .hidden } else v)
  | .keep => cache

theorem findIdxOpt_eq_some {α : Type} (p : α → Bool) (l : List α) (i : Nat)
    (h : findIdxOpt p l = some i) :
    ∃ hi : i < l.length, p (l.get ⟨i, hi⟩) = true := by
  induction l generalizing i with
  | nil => simp [findIdxOpt] at h
  | cons a as ih =>
    unfold findIdxOpt at h
    by_cases hp : p a
    · rw [if_pos hp] at h
      obtain rfl : 0 = i := Option.some.inj h
      exact ⟨Nat.succ_pos _, hp⟩
    · rw [if_neg hp] at h
      rcases Option.map_eq_some'.mp h with ⟨j, hj, rfl⟩
      obtain ⟨hjl, hpj⟩ := ih j hj
      exact ⟨Nat.succ_lt_succ hjl, hpj⟩

theorem not_mem_swapRemoveIdx {α : Type} (l : List α) (p : α → Bool) (i : Nat)
    (hi : i < l.length)
    (huniq : ∀ j, (hj : j < l.length) → p (l.get ⟨j, hj⟩) = true → j = i) :
    ∀ a ∈ swapRemoveIdx l i, p a = false := by
  intro a ha
  have hne : l ≠ [] := by
    intro h
    subst h
    simp at hi
  unfold swapRemoveIdx at ha
  rw [List.getLast?_eq_getLast l hne] at ha
  rw [List.mem_iff_get] at ha
  obtain ⟨⟨j, hj⟩, hja⟩ := ha
  have hn1 : 0 < l.length := List.length_pos.mpr hne
  have hjl : j < l.length - 1 := by
    simpa [List.length_dropLast, List.length_set] using hj
  have hjl' : j < (l.set i (l.getLast hne)).length := by
    rw [List.length_set]
    omega
  have hgd : ((l.set i (l.getLast hne)).dropLast).get ⟨j, hj⟩
      = (l.set i (l.getLast hne)).get ⟨j, hjl'⟩ := by
    rw [List.get_eq_getElem, List.get_eq_getElem, List.getElem_dropLast]
  rw [hgd] at hja
  have hlast : l.getLast hne = l.get ⟨l.length - 1, by omega⟩ := by
    rw [List.getLast_eq_getElem]
    rfl
  by_cases hij : i = j
  · subst hij
    rw [List.get_eq_getElem, List.getElem_set, if_pos rfl] at hja
    subst hja
    rw [hlast]
    by_contra hcon
    rw [Bool.not_eq_false] at hcon
    have := huniq (l.length - 1) (by omega) hcon
    omega
  · rw [List.get_eq_getElem, List.getElem_set, if_neg hij] at hja
    subst hja
    by_contra hcon
    rw [Bool.not_eq_false] at hcon
    have := huniq j (by omega) hcon
    exact hij this.symm

theorem removeTag_not_mem (s : Units) (t : Tag) (h : s.tags.Nodup) :
    t ∉ ((s.removeTag t).1).tags := by
  unfold Units.removeTag swapRemove
  rcases hf : findIdxOpt (fun v => decide (v.tag = t)) s with _ | i
  · rw [hf]
    intro hmem
    simp only [Units.tags] at hmem
    have hnone := findIdxOpt_isSome (fun v => decide (v.tag = t)) s
    rw [hf] at hnone
    rcases List.mem_map.mp hmem with ⟨v, hv, hvt⟩
    have hT : s.any (fun v => decide (v.tag = t)) = true :=
      List.any_eq_true.mpr ⟨v, hv, by simpa using hvt⟩
    rw [← hnone] at hT
    exact Bool.false_ne_true hT
  · obtain ⟨hil, hpi⟩ := findIdxOpt_eq_some _ s i hf
    rw [hf]
    intro hmem
    simp only [Units.tags] at hmem
    rcases List.mem_map.mp hmem with ⟨v, hv, hvt⟩
    have huniq : ∀ j, (hj : j < s.length) →
        (fun v : Unit => decide (v.tag = t)) (s.get ⟨j, hj⟩) = true → j = i := by
      intro j hj hpj
      simp only [decide_eq_true_eq] at hpj hpi
      have hmap : (s.map Unit.tag).Nodup := h
      have hglj : (s.map Unit.tag).get ⟨j, by simpa using hj⟩ = (s.get ⟨j, hj⟩).tag := by
        simp
      have hgli : (s.map Unit.tag).get ⟨i, by simpa using hil⟩ = (s.get ⟨i, hil⟩).tag := by
        simp
      have : (⟨j, by simpa using hj⟩ : Fin (s.map Unit.tag).length)
          = ⟨i, by simpa using hil⟩ := by
        apply List.nodup_iff_injective_get.mp hmap
        rw [hglj, hgli, hpj, hpi]
      simpa using congrArg Fin.val this
    have := not_mem_swapRemoveIdx s (fun v => decide (v.tag = t)) i hil huniq v hv
    simp only [decide_eq_false_iff_not] at this
    exact this hvt

/-- C4 (amended): for a cached enemy ground unit (not flying, not a
structure) that is absent from the current visible enemy set, was last seen
fully visible, and whose last-known cell is currently visible: the entry is
classified Presumed-Burrowed iff the enemy race is zerg AND it is *not* a
changeling-class unit with a ready transport adjacent AND *not* a drone
with a low-build-progress structure or ready extractor adjacent (the
circumstantial adjacency conditions are exclusions triggering eviction —
the reverse of the claim) AND no own detector or scan covers the position
AND the surrounding cells (radius 2) are visible; the only other outcome in
this branch is eviction.  A presumed-burrowed entry whose type has a known
burrowed variant is retained with an unchanged tag set, its type mutated to
the variant and its display state set to Hidden; an evicted entry's tag
leaves the cache. -/
theorem burrow_inference (ctx : StealthCtx) (u : Unit) (cache : Units)
    (habsent : ctx.currentEnemyTags.any (fun x => x = u.tag) = false)
    (hfly : u.isFlying = false) (hstruct : u.isStructure = false)
    (hcell : visAt ctx.visibility (cellOf u.position) = true)
    (hseen : u.isVisibleU = true) (hnodup : cache.tags.Nodup) :
    (cacheDecision ctx u = .markBurrowed
      ↔ (ctx.enemyIsZerg = true
          ∧ ¬ (changelingLike u.typeId = true
              ∧ ctx.enemyUnits.any (fun s => isTransportClose u s) = true)
          ∧ ¬ (u.typeId = .drone
              ∧ ctx.enemyStructures.any (fun s => isDroneClose u s) = true)
          ∧ isInvisible u ctx.detectors ctx.scans 0 = true
          ∧ surroundVisible ctx.visibility u.position 2 = true))
    ∧ (cacheDecision ctx u = .markBurrowed ∨ cacheDecision ctx u = .evict)
    ∧ (∀ b : UnitTypeId, burrowedId u.typeId = some b →
        ((applyDecision cache u .markBurrowed).tags = cache.tags
          ∧ ∀ v ∈ applyDecision cache u .markBurrowed,
              v.tag = u.tag → (v.displayType = .hidden ∧ v.typeId = b
                ∧ v.isBurrowed = true ∧ v.isCloaked = true ∧ v.isRevealed = false)))
    ∧ u.tag ∉ (applyDecision cache u .evict).tags := by
  have hdec : cacheDecision ctx u
      = (if (ctx.enemyIsZerg
            && !((changelingLike u.typeId
                  && ctx.enemyUnits.any (fun s => isTransportClose u s))
              || (decide (u.typeId = .drone)
                  && ctx.enemyStructures.any (fun s => isDroneClose u s)))
            && isInvisible u ctx.detectors ctx.scans 0
            && surroundVisible ctx.visibility u.position 2)
         then CacheDecision.markBurrowed else CacheDecision.evict) := by
    unfold cacheDecision
    rw [habsent, hfly, hstruct, hcell, hseen]
    simp
  refine ⟨?_, ?_, ?_, ?_⟩
  · rw [hdec]
    by_cases hb : (ctx.enemyIsZerg
        && !((changelingLike u.typeId
              && ctx.enemyUnits.any (fun s => isTransportClose u s))
          || (decide (u.typeId = .drone)
              && ctx.enemyStructures.any (fun s => isDroneClose u s)))
        && isInvisible u ctx.detectors ctx.scans 0
        && surroundVisible ctx.visibility u.position 2) = true
    · rw [if_pos hb]
      simp only [Bool.and_eq_true, Bool.not_eq_true', Bool.or_eq_false_iff,
        Bool.and_eq_false_iff, decide_eq_true_eq, decide_eq_false_iff_not] at hb
      obtain ⟨⟨⟨hz, hch, hdr⟩, hinv⟩, hsur⟩ := hb
      constructor
      · intro _
        refine ⟨hz, ?_, ?_, hinv, hsur⟩
        · rintro ⟨h1, h2⟩
          rcases hch with h | h
          · rw [h1] at h
            exact absurd h (by simp)
          · rw [h2] at h
            exact absurd h (by simp)
        · rintro ⟨h1, h2⟩
          rcases hdr with h | h
          · exact h h1
          · rw [h2] at h
            exact absurd h (by simp)
      · intro _
        rfl
    · rw [if_neg hb]
      constructor
      · intro h
        exact absurd h (by simp)
      · rintro ⟨hz, hch, hdr, hinv, hsur⟩
        exfalso
        apply hb
        simp only [Bool.and_eq_true, Bool.not_eq_true', Bool.or_eq_false_iff,
          Bool.and_eq_false_iff, decide_eq_true_eq, decide_eq_false_iff_not]
        refine ⟨⟨⟨hz, ?_, ?_⟩, hinv⟩, hsur⟩
        · by_cases h1 : changelingLike u.typeId = true
          · right
            by_contra h2
            rw [Bool.not_eq_false] at h2
            exact hch ⟨h1, h2⟩
          · left
            simpa using h1
        · by_cases h1 : u.typeId = .drone
          · right
            by_contra h2
            rw [Bool.not_eq_false] at h2
            exact hdr ⟨h1, h2⟩
          · left
            exact h1
  · rw [hdec]
    by_cases hb : (ctx.enemyIsZerg
        && !((changelingLike u.typeId
              && ctx.enemyUnits.any (fun s => isTransportClose u s))
          || (decide (u.typeId = .drone)
              && ctx.enemyStructures.any (fun s => isDroneClose u s)))
        && isInvisible u ctx.detectors ctx.scans 0
        && surroundVisible ctx.visibility u.position 2) = true
    · rw [if_pos hb]
      exact Or.inl rfl
    · rw [if_neg hb]
      exact Or.inr rfl
  · intro b hbid
    constructor
    · simp only [applyDecision, hbid]
      unfold Units.tags
      rw [List.map_map]
      apply List.map_congr_left
      intro v _
      by_cases hv : v.tag = u.tag <;> simp [Function.comp, hv]
    · intro v hv hvt
      simp only [applyDecision, hbid] at hv
      rcases List.mem_map.mp hv with ⟨w, _, rfl⟩
      by_cases hwt : w.tag = u.tag
      · simp [hwt]
      · rw [if_neg hwt] at hvt ⊢
        exact absurd hvt hwt
  · exact removeTag_not_mem cache u.tag hnodup

/-- C4 counterexample — the spec's own end-to-end scenario.  An enemy zerg
drone was cached fully visible, is absent from the current tick's enemy
set, stands on a tile that is still visible (the whole neighbourhood is
visible), a ready extractor lies inside the burrow-adjacency distance, and
no detector or scan exists.  The claim requires classification
Presumed-Burrowed and retention; the code evicts the entry, because the
nearby extractor is an exclusion from the burrow heuristic (the drone is
presumed to have entered it), not a trigger. -/
theorem burrow_inference_counterexample :
    (let drone : Unit :=
      { tag := 7, typeId := .drone, alliance := .enemy, position := ⟨10, 10⟩,
        radius := 1/2, buildProgress := 1, displayType := .visible,
        isFlying := false, isBurrowed := false, isCloaked := false,
        isRevealed := false, isHallucination := false, structureAttr := false,
        workerAttr := true, detectRange := 0, isPowered := false };
     let extractor : Unit :=
      { tag := 8, typeId := .extractor, alliance := .enemy, position := ⟨11, 10⟩,
        radius := 1, buildProgress := 1, displayType := .visible,
        isFlying := false, isBurrowed := false, isCloaked := false,
        isRevealed := false, isHallucination := false, structureAttr := true,
        workerAttr := false, detectRange := 0, isPowered := false };
     let ctx : StealthCtx :=
      { currentEnemyTags := [], enemyUnits := [], enemyStructures := [extractor],
        detectors := [], scans := [], visibility := fun _ => some .visible,
        enemyIsZerg := true };
     isDroneClose drone extractor = true
     ∧ isInvisible drone [] [] 0 = true
     ∧ visAt ctx.visibility (cellOf drone.position) = true
     ∧ surroundVisible ctx.visibility drone.position 2 = true
     ∧ cacheDecision ctx drone = .evict
     ∧ (applyDecision [drone] drone (cacheDecision ctx drone)).tags = []) := by
  intro drone extractor ctx
  have hready : extractor.isReady = true := by
    simp only [Unit.isReady, f32Eps, decide_eq_true_eq]
    norm_num
  have hclose : isDroneClose drone extractor = true := by
    simp only [isDroneClose, isCloser, Point2.distSq, hready]
    norm_num
  have hdec : cacheDecision ctx drone = .evict := by
    simp [cacheDecision, hclose, visAt, Pixel.isVisible, Unit.isVisibleU]
  refine ⟨hclose, rfl, rfl, rfl, hdec, ?_⟩
  rw [hdec]
  rfl

/-- Witness for C4 at a concrete presumed-burrowed roach: all circumstances
of the amended claim hold, so the decision is Presumed-Burrowed and the
cached entry is retained with its tag set unchanged. -/
theorem burrow_inference_witness :
    (let roach : Unit :=
      { tag := 9, typeId := .roach, alliance := .enemy, position := ⟨20, 20⟩,
        radius := 1/2, buildProgress := 1, displayType := .visible,
        isFlying := false, isBurrowed := false, isCloaked := false,
        isRevealed := false, isHallucination := false, structureAttr := false,
        workerAttr := false, detectRange := 0, isPowered := false };
     let ctx : StealthCtx :=
      { currentEnemyTags := [], enemyUnits := [], enemyStructures := [],
        detectors := [], scans := [], visibility := fun _ => some .visible,
        enemyIsZerg := true };
     cacheDecision ctx roach = .markBurrowed
     ∧ (applyDecision [roach] roach .markBurrowed).tags = [9]) := by
  intro roach ctx
  have h := burrow_inference ctx roach [roach] rfl rfl rfl rfl rfl (by simp [Units.tags])
  have hdec : cacheDecision ctx roach = .markBurrowed := by
    apply h.1.mpr
    refine ⟨rfl, ?_, ?_, rfl, rfl⟩
    · rintro ⟨hc, _⟩
      simp [changelingLike] at hc
    · rintro ⟨hc, _⟩
      simp at hc
  refine ⟨hdec, ?_⟩
  have htags := (h.2.2.1 .roachBurrowed rfl).1
  rw [htags]
  rfl

/-- A resource of one cluster as the placement search reads it. -/
structure Resource where
  tag : Tag
  pos : Point2
  geyser : Bool
deriving DecidableEq

/-- The coordinate range `-7..=7` of the offset ring. -/
def offsetRange : List Int :=
  (List.range 15).map (fun i => (i : Int) - 7)

/-- The offset ring of `Bot::prepare_start` (`bot.rs`):
`iproduct!((-7..=7), (-7..=7))` filtered to squared offset distance in
`(16, 64]`, in iteration order (`x` outer, `y` inner). -/
def offsetsList : List (Int × Int) :=
  offsetRange.flatMap (fun x =>
    offsetRange.filterMap (fun y =>
      if 16 < x * x + y * y ∧ x * x + y * y ≤ 64 then some (x, y) else Option.none))

/-- Maximum squared distance from a candidate point to any resource of the
cluster (the `max_distance` accumulator of the `far_enough` closure).  The
source accumulates square-rooted distances; the square root is strictly
monotone, so minimising the maximum of the squared distances selects the
same candidate — with the same ties — as the source's comparison. -/
def maxDistSq (pos : Point2) (resources : List Resource) : ℚ :=
  resources.foldl (fun m r => max m (Point2.distSq pos r.pos)) 0

/-- One ring offset's candidate test (the body of the `filter_map` in
`prepare_start`): the offset point must be placeable and at squared
distance at least 36 from every mineral and 49 from every geyser; a
passing candidate carries the maximum squared distance to any resource. -/
def candidateAt (place : Point2 → Bool) (resources : List Resource) (center : Point2)
    (xy : Int × Int) : Option (Point2 × ℚ) :=
  let pos := center.offset (xy.1 : ℚ) (xy.2 : ℚ)
  if place pos
      && resources.all (fun r =>
          decide (Point2.distSq pos r.pos ≥ if r.geyser then 49 else 36)) then
    some (pos, maxDistSq pos resources)
  else Option.none

/-- `Iterator::min_by` over the candidates: the fold keeps the current
element unless a strictly smaller score appears, so the first element
attaining the minimum wins, exactly as Rust's `min_by` resolves ties. -/
def minByFold {α : Type} : List (α × ℚ) → Option (α × ℚ)
  | [] => Option.none
  | x :: xs => some (xs.foldl (fun acc y => if y.2 < acc.2 then y else acc) x)

/-- The offset search of `Bot::prepare_start` (`bot.rs`) for a valid
resource cluster not matched to a start location.  The source calls
`.expect("...")` on the result, so the `none` case is the fatal
initialization abort. -/
def findExpansionLoc (place : Point2 → Bool) (resources : List Resource)
    (center : Point2) : Option (Point2 × ℚ) :=
  minByFold (offsetsList.filterMap (candidateAt place resources center))

theorem offsetsList_ring (xy : Int × Int) (h : xy ∈ offsetsList) :
    16 < xy.1 * xy.1 + xy.2 * xy.2 ∧ xy.1 * xy.1 + xy.2 * xy.2 ≤ 64 := by
  unfold offsetsList at h
  rcases List.mem_flatMap.mp h with ⟨x, _, hx⟩
  rcases List.mem_filterMap.mp hx with ⟨y, _, hy⟩
  by_cases hc : 16 < x * x + y * y ∧ x * x + y * y ≤ 64
  · rw [if_pos hc] at hy
    obtain rfl : (x, y) = xy := Option.some.inj hy
    exact hc
  · rw [if_neg hc] at hy
    cases hy

theorem candidateAt_eq_some (place : Point2 → Bool) (resources : List Resource)
    (center : Point2) (xy : Int × Int) (pos : Point2) (d : ℚ)
    (h : candidateAt place resources center xy = some (pos, d)) :
    pos = center.offset (xy.1 : ℚ) (xy.2 : ℚ)
    ∧ place pos = true
    ∧ (∀ r ∈ resources, Point2.distSq pos r.pos ≥ (if r.geyser = true then 49 else 36))
    ∧ d = maxDistSq pos resources := by
  unfold candidateAt at h
  by_cases hc : (place (center.offset (xy.1 : ℚ) (xy.2 : ℚ))
      && resources.all (fun r =>
          decide (Point2.distSq (center.offset (xy.1 : ℚ) (xy.2 : ℚ)) r.pos
            ≥ if r.geyser then 49 else 36))) = true
  · rw [if_pos hc] at h
    have hpos : center.offset (xy.1 : ℚ) (xy.2 : ℚ) = pos ∧ maxDistSq (center.offset (xy.1 : ℚ) (xy.2 : ℚ)) resources = d := by
      have := Option.some.inj h
      exact ⟨congrArg Prod.fst this, congrArg Prod.snd this⟩
    obtain ⟨hp, hd⟩ := hpos
    subst hp
    rw [Bool.and_eq_true] at hc
    refine ⟨rfl, hc.1, ?_, hd.symm⟩
    intro r hr
    have := List.all_eq_true.mp hc.2 r hr
    simp only [decide_eq_true_eq] at this
    by_cases hg : r.geyser = true
    · simpa [hg] using this
    · have hg' : r.geyser = false := by
        simpa using hg
      simpa [hg'] using this
  · rw [if_neg hc] at h
    cases h

theorem foldlMin_spec {α : Type} (l : List (α × ℚ)) (acc : α × ℚ) :
    ∃ l₁ l₂ : List (α × ℚ),
      acc :: l = l₁ ++ (l.foldl (fun acc y => if y.2 < acc.2 then y else acc) acc) :: l₂
      ∧ (∀ x ∈ l₁, (l.foldl (fun acc y => if y.2 < acc.2 then y else acc) acc).2 < x.2)
      ∧ (∀ x ∈ acc :: l, (l.foldl (fun acc y => if y.2 < acc.2 then y else acc) acc).2 ≤ x.2) := by
  induction l generalizing acc with
  | nil =>
    refine ⟨[], [], rfl, by simp, ?_⟩
    intro x hx
    rcases List.mem_singleton.mp hx with rfl
    exact le_refl _
  | cons y ys ih =>
    by_cases hlt : y.2 < acc.2
    · obtain ⟨l₁, l₂, heq, hstrict, hmin⟩ := ih y
      have hstep : (y :: ys).foldl (fun acc y => if y.2 < acc.2 then y else acc) acc
          = ys.foldl (fun acc y => if y.2 < acc.2 then y else acc) y := by
        rw [List.foldl_cons, if_pos hlt]
      refine ⟨acc :: l₁, l₂, ?_, ?_, ?_⟩
      · rw [hstep]
        rw [List.cons_append]
        rw [← heq]
      · intro x hx
        rw [hstep]
        rcases List.mem_cons.mp hx with rfl | hx'
        · calc (ys.foldl (fun acc y => if y.2 < acc.2 then y else acc) y).2
              ≤ y.2 := hmin y (List.mem_cons_self y ys)
            _ < x.2 := hlt
        · exact hstrict x hx'
      · intro x hx
        rw [hstep]
        rcases List.mem_cons.mp hx with rfl | hx'
        · calc (ys.foldl (fun acc y => if y.2 < acc.2 then y else acc) y).2
              ≤ y.2 := hmin y (List.mem_cons_self y ys)
            _ ≤ x.2 := le_of_lt hlt
        · exact hmin x hx'
    · obtain ⟨l₁, l₂, heq, hstrict, hmin⟩ := ih acc
      have hle : acc.2 ≤ y.2 := le_of_not_lt hlt
      have hstep : (y :: ys).foldl (fun acc y => if y.2 < acc.2 then y else acc) acc
          = ys.foldl (fun acc y => if y.2 < acc.2 then y else acc) acc := by
        rw [List.foldl_cons, if_neg hlt]
      rw [hstep]
      rcases l₁ with _ | ⟨a, l₁'⟩
      · rw [List.nil_append] at heq
        obtain ⟨h1, h2⟩ := List.cons_eq_cons.mp heq
        refine ⟨[], y :: ys, ?_, by simp, ?_⟩
        · rw [List.nil_append, ← h1]
        · intro x hx
          rcases List.mem_cons.mp hx with rfl | hx'
          · exact hmin x (List.mem_cons_self _ _)
          · rcases List.mem_cons.mp hx' with rfl | hx''
            · rw [← h1]
              exact hle
            · exact hmin x (List.mem_cons_of_mem _ hx'')
      · rw [List.cons_append] at heq
        obtain ⟨h1, h2⟩ := List.cons_eq_cons.mp heq
        subst h1
        refine ⟨acc :: y :: l₁', l₂, ?_, ?_, ?_⟩
        · rw [List.cons_append, List.cons_append]
          exact congrArg (fun l => acc :: y :: l) h2
        · intro x hx
          have hacc : (ys.foldl (fun acc y => if y.2 < acc.2 then y else acc) acc).2 < acc.2 :=
            hstrict acc (List.mem_cons_self _ _)
          rcases List.mem_cons.mp hx with rfl | hx'
          · exact hacc
          · rcases List.mem_cons.mp hx' with rfl | hx''
            · exact lt_of_lt_of_le hacc hle
            · exact hstrict x (List.mem_cons_of_mem _ hx'')
        · intro x hx
          rcases List.mem_cons.mp hx with rfl | hx'
          · exact hmin x (List.mem_cons_self _ _)
          · rcases List.mem_cons.mp hx' with rfl | hx''
            · exact le_of_lt (lt_of_lt_of_le (hstrict acc (List.mem_cons_self _ _)) hle)
            · exact hmin x (List.mem_cons_of_mem _ hx'')

theorem minByFold_spec {α : Type} (l : List (α × ℚ)) (m : α × ℚ)
    (h : minByFold l = some m) :
    ∃ l₁ l₂ : List (α × ℚ), l = l₁ ++ m :: l₂
      ∧ (∀ x ∈ l₁, m.2 < x.2) ∧ ∀ x ∈ l, m.2 ≤ x.2 := by
  cases l with
  | nil => cases h
  | cons x xs =>
    obtain rfl : xs.foldl (fun acc y => if y.2 < acc.2 then y else acc) x = m :=
      Option.some.inj h
    obtain ⟨l₁, l₂, heq, hstrict, hmin⟩ := foldlMin_spec xs x
    exact ⟨l₁, l₂, heq, hstrict, hmin⟩

theorem minByFold_eq_none {α : Type} (l : List (α × ℚ)) (h : minByFold l = Option.none) :
    l = [] := by
  cases l with
  | nil => rfl
  | cons x xs => cases h

/-- C7: for every valid resource cluster not matched to a start location,
a successful offset search returns a placeable point at an integer ring
offset (squared offset distance in `(16, 64]`) from the
rounded-and-centered resource centroid, at squared distance at least 36
from every mineral and 49 from every geyser of the cluster, minimising the
maximum distance to any resource over all passing candidates with ties
broken by the first candidate in the ring's enumeration (raster) order;
and when no offset candidate passes, the search yields `none` — the case
the source turns into the fatal
`expect("Can't detect right position for expansion")` abort rather than
silently skipping the expansion. -/
theorem expansion_offset_search (place : Point2 → Bool) (resources : List Resource)
    (center : Point2) :
    (∀ pos d, findExpansionLoc place resources center = some (pos, d) →
      ((∃ xy ∈ offsetsList, pos = center.offset (xy.1 : ℚ) (xy.2 : ℚ)
            ∧ 16 < xy.1 * xy.1 + xy.2 * xy.2 ∧ xy.1 * xy.1 + xy.2 * xy.2 ≤ 64)
        ∧ place pos = true
        ∧ (∀ r ∈ resources, Point2.distSq pos r.pos ≥ (if r.geyser = true then 49 else 36))
        ∧ d = maxDistSq pos resources
        ∧ (∀ xy ∈ offsetsList, ∀ c : Point2 × ℚ,
            candidateAt place resources center xy = some c → d ≤ c.2)
        ∧ (∃ l₁ l₂ : List (Point2 × ℚ),
            offsetsList.filterMap (candidateAt place resources center)
              = l₁ ++ (pos, d) :: l₂ ∧ ∀ c ∈ l₁, d < c.2)))
    ∧ (findExpansionLoc place resources center = Option.none →
        ∀ xy ∈ offsetsList, candidateAt place resources center xy = Option.none) := by
  constructor
  · intro pos d h
    unfold findExpansionLoc at h
    obtain ⟨l₁, l₂, heq, hstrict, hmin⟩ := minByFold_spec _ _ h
    have hmem : (pos, d) ∈ offsetsList.filterMap (candidateAt place resources center) := by
      rw [heq]
      exact List.mem_append_right _ (List.mem_cons_self _ _)
    rcases List.mem_filterMap.mp hmem with ⟨xy, hxy, hcand⟩
    obtain ⟨hpos, hplace, hfar, hd⟩ := candidateAt_eq_some _ _ _ _ _ _ hcand
    obtain ⟨h16, h64⟩ := offsetsList_ring xy hxy
    refine ⟨⟨xy, hxy, hpos, h16, h64⟩, hplace, hfar, hd, ?_, ⟨l₁, l₂, heq, hstrict⟩⟩
    intro xy2 hxy2 c hc
    exact hmin c (List.mem_filterMap.mpr ⟨xy2, hxy2, hc⟩)
  · intro h xy hxy
    unfold findExpansionLoc at h
    have hnil := minByFold_eq_none _ h
    by_contra hc
    rcases Option.ne_none_iff_exists'.mp hc with ⟨c, hcand⟩
    have hmem : c ∈ offsetsList.filterMap (candidateAt place resources center) :=
      List.mem_filterMap.mpr ⟨xy, hxy, hcand⟩
    rw [hnil] at hmem
    cases hmem

theorem minByFold_cons {α : Type} (x : α × ℚ) (xs : List (α × ℚ)) :
    minByFold (x :: xs)
      = some (xs.foldl (fun acc y => if y.2 < acc.2 then y else acc) x) := rfl

theorem filterMap_some_eq_map {α β : Type} (g : α → β) (l : List α) :
    l.filterMap (fun a => some (g a)) = l.map g := by
  induction l with
  | nil => rfl
  | cons a as ih => simp [List.filterMap_cons, ih]

theorem foldl_min_stay {α : Type} (xs : List (α × ℚ)) (acc : α × ℚ)
    (h : ∀ y ∈ xs, ¬ y.2 < acc.2) :
    xs.foldl (fun acc y => if y.2 < acc.2 then y else acc) acc = acc := by
  induction xs with
  | nil => rfl
  | cons y ys ih =>
    rw [List.foldl_cons, if_neg (h y (List.mem_cons_self _ _))]
    exact ih (fun y' hy' => h y' (List.mem_cons_of_mem _ hy'))

set_option maxRecDepth 4000 in
/-- Witness for C7 at a degenerate concrete scene (everything placeable, no
resources): every ring offset is a candidate with score zero, the search
returns the first one, `(-7, -3)`, and the theorem yields that the chosen
point sits on the offset ring. -/
theorem expansion_offset_search_witness :
    findExpansionLoc (fun _ => true) [] ⟨0, 0⟩
        = some (Point2.offset ⟨0, 0⟩ ((-7 : Int) : ℚ) ((-3 : Int) : ℚ), 0)
    ∧ (∃ xy ∈ offsetsList,
        Point2.offset ⟨0, 0⟩ ((-7 : Int) : ℚ) ((-3 : Int) : ℚ)
          = Point2.offset ⟨0, 0⟩ (xy.1 : ℚ) (xy.2 : ℚ)
        ∧ 16 < xy.1 * xy.1 + xy.2 * xy.2 ∧ xy.1 * xy.1 + xy.2 * xy.2 ≤ 64) := by
  have hcand : candidateAt (fun _ => true) [] (⟨0, 0⟩ : Point2)
      = fun xy => some (Point2.offset ⟨0, 0⟩ (xy.1 : ℚ) (xy.2 : ℚ), (0 : ℚ)) :=
    funext fun xy => rfl
  have hsplit : offsetsList = (-7, -3) :: offsetsList.tail := rfl
  have hfind : findExpansionLoc (fun _ => true) [] ⟨0, 0⟩
      = some (Point2.offset ⟨0, 0⟩ ((-7 : Int) : ℚ) ((-3 : Int) : ℚ), 0) := by
    unfold findExpansionLoc
    rw [hcand,
      filterMap_some_eq_map
        (fun xy : Int × Int => (Point2.offset ⟨0, 0⟩ (xy.1 : ℚ) (xy.2 : ℚ), (0 : ℚ)))
        offsetsList]
    rw [hsplit, List.map_cons, minByFold_cons]
    rw [foldl_min_stay]
    intro y hy
    rcases List.mem_map.mp hy with ⟨xy, _, rfl⟩
    exact lt_irrefl (0 : ℚ)
  exact ⟨hfind, (((expansion_offset_search (fun _ => true) [] ⟨0, 0⟩).1 _ _ hfind)).1⟩

/-- The player-common block of one observation (`Common` in
`game_state.rs`), restricted to the fields the resource claims read. -/
structure Common where
  minerals : Nat
  vespene : Nat
  foodCap : Nat
  foodUsed : Nat
deriving DecidableEq

/-- The `Bot` resource counters set by `prepare_step` and consumed by
`subtract_resources` (all `u32`, embedded as `Nat`: `saturating_sub` is
exactly `Nat` truncated subtraction, so it can never wrap). -/
structure BotRes where
  minerals : Nat
  vespene : Nat
  supplyCap : Nat
  supplyUsed : Nat
  supplyLeft : Nat
deriving DecidableEq

/-- The `u32` modulus. -/
def u32Mod : Nat := 2 ^ 32

/-- Resource part of `Bot::prepare_step` (`bot.rs`): copies the
observation's common block and sets
`supply_left = supply_cap.saturating_sub(supply_used)`. -/
def prepareStepRes (c : Common) : BotRes :=
  { minerals := c.minerals
    vespene := c.vespene
    supplyCap := c.foodCap
    supplyUsed := c.foodUsed
    supplyLeft := c.foodCap - c.foodUsed }

/-- Cost of one unit type (`Cost` from `game_data.rs`; `supply` is the
`f32` cost already cast to `u32`, as `subtract_resources` does). -/
structure Cost where
  minerals : Nat
  vespene : Nat
  supply : Nat
deriving DecidableEq

/-- `Bot::subtract_resources` (`bot.rs`): saturating subtraction of the
cost from `minerals`, `vespene` and `supply_left`; `supply_used` grows by
wrapping `u32` addition (`+=` in release mode). -/
def subtractResources (r : BotRes) (cost : Cost) (subtractSupply : Bool) : BotRes :=
  let r := { r with
    minerals := r.minerals - cost.minerals
    vespene := r.vespene - cost.vespene }
  if subtractSupply then
    { r with
      supplyUsed := (r.supplyUsed + cost.supply) % u32Mod
      supplyLeft := r.supplyLeft - cost.supply }
  else r

/-- A tick's worth of `subtract_resources` calls, each with its cost and
`subtract_supply` flag. -/
def subtractAll (r : BotRes) (calls : List (Cost × Bool)) : BotRes :=
  calls.foldl (fun r cb => subtractResources r cb.1 cb.2) r

/-- Total mineral cost of a call sequence. -/
def mineralSum (calls : List (Cost × Bool)) : Nat :=
  (calls.map (fun cb => cb.1.minerals)).sum

/-- Total vespene cost of a call sequence. -/
def vespeneSum (calls : List (Cost × Bool)) : Nat :=
  (calls.map (fun cb => cb.1.vespene)).sum

/-- Total supply cost of the calls that subtract supply. -/
def supplySum (calls : List (Cost × Bool)) : Nat :=
  (calls.map (fun cb => if cb.2 then cb.1.supply else 0)).sum

theorem subtractAll_spec (calls : List (Cost × Bool)) (r : BotRes)
    (hinv : r.supplyLeft = r.supplyCap - r.supplyUsed)
    (hof : r.supplyUsed + supplySum calls < u32Mod) :
    (subtractAll r calls).minerals = r.minerals - mineralSum calls
    ∧ (subtractAll r calls).vespene = r.vespene - vespeneSum calls
    ∧ (subtractAll r calls).supplyCap = r.supplyCap
    ∧ (subtractAll r calls).supplyUsed = r.supplyUsed + supplySum calls
    ∧ (subtractAll r calls).supplyLeft
        = (subtractAll r calls).supplyCap - (subtractAll r calls).supplyUsed := by
  induction calls generalizing r with
  | nil =>
    refine ⟨?_, ?_, rfl, ?_, ?_⟩ <;>
      simp [subtractAll, mineralSum, vespeneSum, supplySum, hinv]
  | cons cb rest ih =>
    obtain ⟨cost, b⟩ := cb
    cases b with
    | false =>
      have hsums : supplySum ((cost, false) :: rest) = supplySum rest := by
        simp [supplySum]
      have hstep : subtractAll r ((cost, false) :: rest)
          = subtractAll (subtractResources r cost false) rest := rfl
      have hr' : (subtractResources r cost false).supplyLeft
          = (subtractResources r cost false).supplyCap
            - (subtractResources r cost false).supplyUsed := by
        simpa [subtractResources] using hinv
      have hof' : (subtractResources r cost false).supplyUsed + supplySum rest < u32Mod := by
        rw [hsums] at hof
        simpa [subtractResources] using hof
      obtain ⟨h1, h2, h3, h4, h5⟩ := ih (subtractResources r cost false) hr' hof'
      rw [hstep]
      refine ⟨?_, ?_, ?_, ?_, h5⟩
      · rw [h1]
        simp [subtractResources, mineralSum, Nat.sub_sub]
      · rw [h2]
        simp [subtractResources, vespeneSum, Nat.sub_sub]
      · rw [h3]
        simp [subtractResources]
      · rw [h4]
        simp [subtractResources, hsums]
    | true =>
      have hsums : supplySum ((cost, true) :: rest) = cost.supply + supplySum rest := by
        simp [supplySum]
      have hof0 : r.supplyUsed + cost.supply < u32Mod := by
        rw [hsums] at hof
        omega
      have hused : (subtractResources r cost true).supplyUsed
          = r.supplyUsed + cost.supply := by
        simp [subtractResources, Nat.mod_eq_of_lt hof0]
      have hstep : subtractAll r ((cost, true) :: rest)
          = subtractAll (subtractResources r cost true) rest := rfl
      have hr' : (subtractResources r cost true).supplyLeft
          = (subtractResources r cost true).supplyCap
            - (subtractResources r cost true).supplyUsed := by
        simp [subtractResources, Nat.mod_eq_of_lt hof0, hinv, Nat.sub_sub]
      have hof' : (subtractResources r cost true).supplyUsed + supplySum rest < u32Mod := by
        rw [hused]
        rw [hsums] at hof
        omega
      obtain ⟨h1, h2, h3, h4, h5⟩ := ih (subtractResources r cost true) hr' hof'
      rw [hstep]
      refine ⟨?_, ?_, ?_, ?_, h5⟩
      · rw [h1]
        simp [subtractResources, mineralSum, Nat.sub_sub]
      · rw [h2]
        simp [subtractResources, vespeneSum, Nat.sub_sub]
      · rw [h3]
        simp [subtractResources]
      · rw [h4, hused, hsums]
        omega

/-- C10: after `prepare_step`, `supply_left = supply_cap - supply_used`
when `supply_cap ≥ supply_used` and `0` otherwise; and over any sequence of
`subtract_resources` calls (hypothesis: the wrapping `u32` addition to
`supply_used` never overflows), minerals and vespene subtract with
saturation at zero (truncated subtraction of the running totals, never a
wraparound) and the supply relation is preserved at the end. -/
theorem resource_arith (c : Common) (calls : List (Cost × Bool))
    (hof : c.foodUsed + supplySum calls < u32Mod) :
    (prepareStepRes c).supplyLeft
        = (if c.foodUsed ≤ c.foodCap then c.foodCap - c.foodUsed else 0)
    ∧ (subtractAll (prepareStepRes c) calls).minerals = c.minerals - mineralSum calls
    ∧ (subtractAll (prepareStepRes c) calls).vespene = c.vespene - vespeneSum calls
    ∧ (subtractAll (prepareStepRes c) calls).supplyLeft
        = (if (subtractAll (prepareStepRes c) calls).supplyUsed
              ≤ (subtractAll (prepareStepRes c) calls).supplyCap
           then (subtractAll (prepareStepRes c) calls).supplyCap
                - (subtractAll (prepareStepRes c) calls).supplyUsed
           else 0) := by
  have h := subtractAll_spec calls (prepareStepRes c) (by simp [prepareStepRes])
    (by simpa [prepareStepRes] using hof)
  obtain ⟨h1, h2, h3, h4, h5⟩ := h
  refine ⟨?_, ?_, ?_, ?_⟩
  · simp only [prepareStepRes]
    split <;> omega
  · simpa [prepareStepRes] using h1
  · simpa [prepareStepRes] using h2
  · rw [h5]
    split <;> omega

/-- Witness for C10 at a concrete observation and call sequence. -/
theorem resource_arith_witness :
    (12 + supplySum [(⟨100, 0, 2⟩, true), (⟨25, 25, 3⟩, false)] < u32Mod)
    ∧ (subtractAll (prepareStepRes ⟨50, 25, 15, 12⟩)
          [(⟨100, 0, 2⟩, true), (⟨25, 25, 3⟩, false)]).minerals
        = 50 - mineralSum [(⟨100, 0, 2⟩, true), (⟨25, 25, 3⟩, false)] :=
  ⟨by decide,
    (resource_arith ⟨50, 25, 15, 12⟩ [(⟨100, 0, 2⟩, true), (⟨25, 25, 3⟩, false)]
      (by decide)).2.1⟩

end RustSc2
